import Mathlib

/-!
Shallow embedding of `src/generate.py` from normative-io/smech-nace-mapping-public.

The program loads two CSV tables (a SMECH-to-BCC code mapping and a BCC sector
table), validates them, cross-checks referential integrity, renders two
TypeScript artifacts containing JSON payloads, optionally formats them with an
external tool, and writes them out.

The embedding starts from parsed CSV rows (structures with one string field per
column, mirroring `SMECH_SECTORS_COLUMNS` and `BCC_SECTORS_COLUMNS`); the CSV
dialect itself is outside every claim.  Python exceptions become `Except String`,
`print` warnings become an explicitly threaded warning list, and the external
formatter and file writes become an oracle function and a returned list of
write operations.
-/

namespace SmechNace

/-- The ASCII whitespace characters removed by Python `str.strip` (Python also
strips the rarer Unicode space characters, which the spreadsheet data does not
contain): space, tab, newline, carriage return, vertical tab, form feed. -/
def isPySpace (c : Char) : Bool :=
  c = ' ' ∨ c.toNat = 9 ∨ c.toNat = 10 ∨ c.toNat = 13 ∨ c.toNat = 11 ∨ c.toNat = 12

/-- Python `str.strip` (whitespace trim on both ends). -/
def pyStrip (s : String) : String :=
  String.mk (((s.data.dropWhile isPySpace).reverse.dropWhile isPySpace).reverse)

/-- Lower-casing of one character as far as the include-flag comparison
against "x"/"y"/"yes" can observe (ASCII letters). -/
def pyLowerChar (c : Char) : Char :=
  if 65 ≤ c.toNat ∧ c.toNat ≤ 90 then Char.ofNat (c.toNat + 32) else c

/-- Python `str.lower`. -/
def pyLower (s : String) : String := String.mk (s.data.map pyLowerChar)

/-- The double-quote character. -/
def dq : Char := Char.ofNat 34

/-- The single-quote character. -/
def sq : Char := Char.ofNat 39

/-- The backslash character. -/
def bsl : Char := Char.ofNat 92

/-- `RX_DIGITS = re.compile("^[0-9]+$")`; `RX_DIGITS.match(s)` succeeds iff
one or more ASCII digits span the string — where, per Python's `$` semantics
(no `re.MULTILINE`), the match may also end just before a single newline that
terminates the string.  So `"123"` and `"123\n"` match; `""`, `"\n"`,
`"12a"`, `"12\n3"` and `"123\n\n"` do not. -/
def rxDigitsMatch (s : String) : Bool :=
  (s.data ≠ [] && s.data.all Char.isDigit)
    || (s.data.getLast? == some (Char.ofNat 10) && s.data.dropLast ≠ []
        && s.data.dropLast.all Char.isDigit)

/-- Removing one trailing newline, if present: vocabulary for the corrected
characterization of the digit validator. -/
def stripOneTrailingNewline (l : List Char) : List Char :=
  if l.getLast? = some (Char.ofNat 10) then l.dropLast else l

/-- Hex digit character for a value below 16, lower-case as in Python's
`format(n, "04x")`. -/
def hexDigitChar (n : Nat) : Char :=
  if n < 10 then Char.ofNat (48 + n) else Char.ofNat (87 + n)

/-- Four-digit lower-case hex rendering of a value below 0x10000. -/
def toHex4 (n : Nat) : List Char :=
  [hexDigitChar (n / 4096 % 16), hexDigitChar (n / 256 % 16),
   hexDigitChar (n / 16 % 16), hexDigitChar (n % 16)]

/-- One character of Python `repr` for `str`, given the chosen quote `q`:
backslash and the quote are escaped, the common control characters use their
short escapes.  (Python additionally hex-escapes unprintable characters; the
spreadsheet data contains printable text.) -/
def pyReprEscape (q : Char) (c : Char) : List Char :=
  if c = bsl then [bsl, bsl]
  else if c = q then [bsl, q]
  else if c.toNat = 10 then [bsl, 'n']
  else if c.toNat = 13 then [bsl, 'r']
  else if c.toNat = 9 then [bsl, 't']
  else [c]

/-- Python `repr` of a `str`: single-quoted, unless the string contains a
single quote and no double quote, in which case double-quoted. -/
def pyRepr (s : String) : String :=
  let q := if s.data.contains sq && !(s.data.contains dq) then dq else sq
  String.mk (q :: s.data.flatMap (pyReprEscape q) ++ [q])

/-- Error message of `expect_just_digits` (an f-string in the source). -/
def justDigitsMsg (fieldname value : String) (rownum : Nat) : String :=
  fieldname ++ " is expected to be just digits, but got " ++ pyRepr value
    ++ " on row " ++ toString rownum

/-- Error message of `expect_non_digits`. -/
def nonDigitsMsg (fieldname value : String) (rownum : Nat) : String :=
  fieldname ++ " is expected to have text not just digits, but got "
    ++ pyRepr value ++ " on row " ++ toString rownum

/-- `expect_just_digits(value, fieldname, rownum)`: raise `ValueError` unless
`RX_DIGITS` matches `value`. -/
def expect_just_digits (value fieldname : String) (rownum : Nat) :
    Except String Unit :=
  if rxDigitsMatch value then .ok ()
  else .error (justDigitsMsg fieldname value rownum)

/-- `expect_non_digits(value, fieldname, rownum)`: raise `ValueError` if
`RX_DIGITS` matches `value`. -/
def expect_non_digits (value fieldname : String) (rownum : Nat) :
    Except String Unit :=
  if rxDigitsMatch value then .error (nonDigitsMsg fieldname value rownum)
  else .ok ()

/-- A Python `dict` with string keys and values: an insertion-ordered
association list with unique keys. -/
abbrev Dict := List (String × String)

/-- `k in d` for a Python dict. -/
def dictContains (d : Dict) (k : String) : Bool := d.any (fun p => p.1 == k)

/-- `d.get(k)` / `d[k]` lookup. -/
def dictGet? (d : Dict) (k : String) : Option String :=
  (d.find? (fun p => p.1 == k)).map (·.2)

/-- `d[k] = v`: update in place if the key exists (keeping its position, as
Python dicts do), else append at the end. -/
def dictSet (d : Dict) (k v : String) : Dict :=
  if dictContains d k then d.map (fun p => if p.1 == k then (k, v) else p)
  else d ++ [(k, v)]

/-- One row of `data/smech_sectors.csv` (`SMECH_SECTORS_COLUMNS`). -/
structure SmechRow where
  smech_name : String
  smech_code : String
  nace_name : String
  exio2_code : String
  exio3_code : String
  bcc_code : String
deriving DecidableEq, Repr

/-- One row of `data/bcc_sectors.csv` (`BCC_SECTORS_COLUMNS`). -/
structure BccRow where
  nace_code : String
  ignore1 : String
  ignore2 : String
  exio3_name : String
  nace_name : String
  notes : String
  use_for_bcc : String
  bcc_name : String
deriving DecidableEq, Repr

/-- The warning printed by `load_smech_to_bcc` for a row with no BCC code. -/
def smechWarnMsg (row : SmechRow) : String :=
  "WARNING: Skipping mapping for SMECH code " ++ pyStrip row.smech_code
    ++ " (" ++ row.smech_name ++ ") - no BCC code"

/-- The duplicate-mapping error of `load_smech_to_bcc`. -/
def smechDupMsg (code : String) (rownum : Nat) : String :=
  "smech_code " ++ code ++ " has multiple mappings (duplicate on row "
    ++ toString rownum ++ ")"

/-- The loop body of `load_smech_to_bcc` for one `(row_idx, row)` pair.
The state is the dict under construction plus the warnings printed so far
(the informational "mapping code ..." print is not modelled). -/
def load_smech_step (st : Dict × List String) (idxRow : Nat × SmechRow) :
    Except String (Dict × List String) :=
  let out := st.1
  let warns := st.2
  let row_idx := idxRow.1
  let row := idxRow.2
  let smech_code := pyStrip row.smech_code
  let bcc_code := pyStrip row.bcc_code
  if bcc_code = "" then
    .ok (out, warns ++ [smechWarnMsg row])
  else do
    expect_just_digits smech_code "smech_code" row_idx
    expect_just_digits bcc_code "bcc_code" row_idx
    match dictGet? out smech_code with
    | some v =>
      if v ≠ bcc_code then .error (smechDupMsg smech_code row_idx)
      else .ok (dictSet out smech_code bcc_code, warns)
    | none => .ok (dictSet out smech_code bcc_code, warns)

/-- Fold of `load_smech_step` over the enumerated data rows. -/
def loadSmechAux (st : Dict × List String) :
    List (Nat × SmechRow) → Except String (Dict × List String)
  | [] => .ok st
  | x :: xs => do loadSmechAux (← load_smech_step st x) xs

/-- `load_smech_to_bcc`: the header row is consumed by `next(reader)` before
the loop, so `rows` are the data rows, enumerated from 2. -/
def load_smech_to_bcc (rows : List SmechRow) :
    Except String (Dict × List String) :=
  loadSmechAux ([], []) (List.enumFrom 2 rows)

/-- The duplicate-code error of `load_bcc_sectors`. -/
def naceDupMsg (code : String) (rownum : Nat) : String :=
  "nace_code is expected to be unique but got a duplicate of " ++ pyRepr code
    ++ " on row " ++ toString rownum ++ ". Mistake?"

/-- `row["use_for_bcc"].strip().lower() in ("x", "y", "yes")`. -/
def useForBcc (row : BccRow) : Bool :=
  pyLower (pyStrip row.use_for_bcc) ∈ ["x", "y", "yes"]

/-- The loop body of `load_bcc_sectors` for one `(row_idx, row)` pair. -/
def load_bcc_step (out : Dict) (idxRow : Nat × BccRow) : Except String Dict :=
  let row_idx := idxRow.1
  let row := idxRow.2
  let nace_code := pyStrip row.nace_code
  let bcc_name := pyStrip row.bcc_name
  if ¬ useForBcc row then .ok out
  else do
    expect_just_digits nace_code "nace_code" row_idx
    expect_non_digits bcc_name "bcc_name" row_idx
    if dictContains out nace_code then .error (naceDupMsg nace_code row_idx)
    else .ok (dictSet out nace_code bcc_name)

/-- Fold of `load_bcc_step` over the enumerated data rows. -/
def loadBccAux (out : Dict) : List (Nat × BccRow) → Except String Dict
  | [] => .ok out
  | x :: xs => do loadBccAux (← load_bcc_step out x) xs

/-- `load_bcc_sectors`: data rows (header already consumed), enumerated
from 2. -/
def load_bcc_sectors (rows : List BccRow) : Except String Dict :=
  loadBccAux [] (List.enumFrom 2 rows)

/-- The `NaceInfo` shape rendered into the artifacts: the dict literal
`{"name": v, "nace": k}` built in `main` for each `(k, v)` of the BCC sector
dict. -/
structure NaceInfo where
  name : String
  nace : String
deriving DecidableEq, Repr

/-- `sector_list = sorted(({"name": v, "nace": k} for k, v in bcc_sectors.items()),
key=lambda x: x["name"])` — Python `sorted` is a stable sort comparing the
keys (strings, by code point), as is `List.mergeSort`. -/
def sector_list (bcc_sectors : Dict) : List NaceInfo :=
  (bcc_sectors.map (fun p => NaceInfo.mk p.2 p.1)).mergeSort
    (fun a b => a.name ≤ b.name)

/-- `json.dumps` escaping of one character with `ensure_ascii=True`:
backslash, double quote and the short control escapes first, printable ASCII
verbatim, everything else as `\uXXXX` (a surrogate pair beyond the BMP). -/
def jsonEscapeChar (c : Char) : List Char :=
  let n := c.toNat
  if c = dq then [bsl, dq]
  else if c = bsl then [bsl, bsl]
  else if n = 8 then [bsl, 'b']
  else if n = 9 then [bsl, 't']
  else if n = 10 then [bsl, 'n']
  else if n = 12 then [bsl, 'f']
  else if n = 13 then [bsl, 'r']
  else if 0x20 ≤ n ∧ n ≤ 0x7e then [c]
  else if n < 0x10000 then bsl :: 'u' :: toHex4 n
  else
    bsl :: 'u' :: toHex4 (0xD800 + (n - 0x10000) / 0x400)
      ++ bsl :: 'u' :: toHex4 (0xDC00 + (n - 0x10000) % 0x400)

/-- `json.dumps` of a string, `ensure_ascii=True`. -/
def jsonStr (s : String) : String :=
  String.mk (dq :: s.data.flatMap jsonEscapeChar ++ [dq])

/-- `json.dumps` of one `{"name": ..., "nace": ...}` dict literal with
`indent=None` (default separators `", "` and `": "`). -/
def jsonSector (x : NaceInfo) : String :=
  "\x7b\"name\": " ++ jsonStr x.name ++ ", \"nace\": " ++ jsonStr x.nace ++ "\x7d"

/-- The item join of `json.dumps` with `indent=None`: items separated by the
default item separator `", "`. -/
def joinComma : List String → String
  | [] => ""
  | [x] => x
  | x :: y :: xs => x ++ ", " ++ joinComma (y :: xs)

/-- `json.dumps` of a list, `indent=None`. -/
def jsonArr (xs : List String) : String :=
  "[" ++ joinComma xs ++ "]"

/-- `sorted` of dict items by key, as done by `json.dumps(..., sort_keys=True)`. -/
def sortPairs (d : Dict) : Dict := d.mergeSort (fun a b => a.1 ≤ b.1)

/-- `json.dumps` of a string-to-string dict, `indent=None` (default key
separator `": "`); the items are emitted in the given order. -/
def jsonObj (d : Dict) : String :=
  "\x7b" ++ joinComma
    (d.map (fun p => jsonStr p.1 ++ ": " ++ jsonStr p.2)) ++ "\x7d"

/-- The payload interpolated as `$sector_list` and as Artifact B's
`$bcc_sector_array`: `json.dumps` of a list of `{"name", "nace"}` dicts. -/
def jsonSectorArray (sl : List NaceInfo) : String := jsonArr (sl.map jsonSector)

/-- The payload interpolated as `$smech_mapping`:
`json.dumps(smech_to_bcc, sort_keys=True, ensure_ascii=True, indent=None)`. -/
def jsonSmechMapping (smech_to_bcc : Dict) : String := jsonObj (sortPairs smech_to_bcc)

/-- `BENCHMARK_OUT_TEMPLATE.substitute(...)` (Artifact A, `naces.ts`). -/
def BENCHMARK_OUT_TEMPLATE (generation_timestamp sectorListPayload smechMappingPayload : String) : String :=
  "// GENERATED FILE. DO NOT EDIT BY HAND.\n//\n// Generated at "
    ++ generation_timestamp
    ++ ".\n// See repository smech-nace-mapping\n\nexport interface NaceInfo \x7b\n  name: string;\n  nace: string;\n\x7d\n\nexport const SECTOR_LIST: NaceInfo[] = "
    ++ sectorListPayload
    ++ ";\n\nexport type SMECHNaceInfo = \x7b [key: string]: string \x7d;\n\nexport const SMECH_NACE_MAPPING: SMECHNaceInfo = "
    ++ smechMappingPayload
    ++ ";\n"

/-- `BCC_SECTORS_OUT_TEMPLATE.substitute(...)` (Artifact B, `sectors.data.ts`). -/
def BCC_SECTORS_OUT_TEMPLATE (generation_timestamp bccSectorArrayPayload : String) : String :=
  "// GENERATED FILE. DO NOT EDIT BY HAND.\n//\n// Generated at "
    ++ generation_timestamp
    ++ ".\n// See repository smech-nace-mapping\n\nimport \x7b Sector \x7d from './data.model';\n\nexport const SECTORS: Sector[] = "
    ++ bccSectorArrayPayload
    ++ ";\n"

/-- The synthetic trailing entry appended to Artifact B's array. -/
def notListed : NaceInfo := NaceInfo.mk "Not listed" ""

/-- Artifact A's full text (`benchmark_code` in `main`). -/
def benchmark_code (ts : String) (smech_to_bcc bcc_sectors : Dict) : String :=
  BENCHMARK_OUT_TEMPLATE ts (jsonSectorArray (sector_list bcc_sectors))
    (jsonSmechMapping smech_to_bcc)

/-- Artifact B's full text (`bcc_sectors_code` in `main`). -/
def bcc_sectors_code (ts : String) (bcc_sectors : Dict) : String :=
  BCC_SECTORS_OUT_TEMPLATE ts
    (jsonSectorArray (sector_list bcc_sectors ++ [notListed]))

/-- The referential-integrity error raised in `main`. -/
def refErrorMsg (k v : String) : String :=
  "SMECH code " ++ k ++ " maps to NACE " ++ v
    ++ " which is not in the BCC sector list"

/-- The loop `for k, v in smech_to_bcc.items(): if v not in bcc_sectors: raise`. -/
def crossCheck (bcc_sectors : Dict) : Dict → Except String Unit
  | [] => .ok ()
  | p :: rest =>
    if dictContains bcc_sectors p.2 then crossCheck bcc_sectors rest
    else .error (refErrorMsg p.1 p.2)

/-- `prettier_format_code(code, code_path, cmd, config_path)`: builds the
argument list and runs the external tool; `run` is the subprocess oracle
(arguments and stdin to either the formatted output, or an error when the
tool exits non-zero, on which `check_returncode` raises). -/
def prettier_format_code (run : List String → String → Except String String)
    (code code_path : String) (cmd : List String)
    (config_path : Option String) : Except String String :=
  let args := cmd
    ++ (match config_path with | some p => ["--config", p] | none => [])
    ++ ["--stdin-filepath", code_path]
  run args code

/-- A file write performed at the end of `main`. -/
structure WriteOp where
  path : String
  content : String
deriving DecidableEq, Repr

/-- Command-line arguments of `main` that matter after parsing. -/
structure Args where
  prettier : Bool
  prettier_cmd : List String
  prettier_config : Option String
  prettier_config_bcc : Option String
  prettier_config_benchmark : Option String
  output_bcc : Option String
  output_benchmark : Option String

/-- `main`, from the two parsed CSV inputs to either an error (any uncaught
exception) or the list of file writes it performs, in order.  `ts` is the
generation timestamp and `run` the subprocess oracle. -/
def main (args : Args) (run : List String → String → Except String String)
    (smechRows : List SmechRow) (bccRows : List BccRow) (ts : String) :
    Except String (List WriteOp) := do
  let (smech_to_bcc, _warnings) ← load_smech_to_bcc smechRows
  let bcc_sectors ← load_bcc_sectors bccRows
  crossCheck bcc_sectors smech_to_bcc
  let bench := benchmark_code ts smech_to_bcc bcc_sectors
  let bccCode := bcc_sectors_code ts bcc_sectors
  let bench ←
    if args.prettier then
      prettier_format_code run bench "naces.ts" args.prettier_cmd
        (args.prettier_config_benchmark <|> args.prettier_config)
    else .ok bench
  let bccCode ←
    if args.prettier then
      prettier_format_code run bccCode "sectors.data.ts" args.prettier_cmd
        (args.prettier_config_bcc <|> args.prettier_config)
    else .ok bccCode
  let output_benchmark := args.output_benchmark.getD "dist/naces.ts"
  let output_bcc_sectors := args.output_bcc.getD "dist/sectors.data.ts"
  .ok [WriteOp.mk output_benchmark bench, WriteOp.mk output_bcc_sectors bccCode]

/-! ### A JSON decoder, inverse to the `json.dumps` fragments above.

Used to state the round-trip claim: decoding the payload interpolated into an
artifact recovers the data it was generated from.  Follows the strict-mode
JSON string grammar (`json.loads`): raw control characters are rejected,
escape sequences and surrogate pairs are interpreted. -/

/-- The left-brace character. -/
def lb : Char := Char.ofNat 123

/-- The right-brace character. -/
def rb : Char := Char.ofNat 125

/-- Value of one hex digit (either case accepted, as by `json.loads`). -/
def hexVal (c : Char) : Option Nat :=
  if 48 ≤ c.toNat ∧ c.toNat ≤ 57 then some (c.toNat - 48)
  else if 97 ≤ c.toNat ∧ c.toNat ≤ 102 then some (c.toNat - 87)
  else if 65 ≤ c.toNat ∧ c.toNat ≤ 70 then some (c.toNat - 55)
  else none

/-- Value of a four-hex-digit group. -/
def fromHex4 (a b c d : Char) : Option Nat :=
  match hexVal a, hexVal b, hexVal c, hexVal d with
  | some va, some vb, some vc, some vd =>
    some (((va * 16 + vb) * 16 + vc) * 16 + vd)
  | _, _, _, _ => none

/-- The single-character JSON escapes. -/
def decShortEscape (e : Char) : Option Char :=
  if e = dq then some dq
  else if e = bsl then some bsl
  else if e = '/' then some '/'
  else if e = 'b' then some (Char.ofNat 8)
  else if e = 'f' then some (Char.ofNat 12)
  else if e = 'n' then some (Char.ofNat 10)
  else if e = 'r' then some (Char.ofNat 13)
  else if e = 't' then some (Char.ofNat 9)
  else none

/-- Decode one escape sequence (the input starts right after the backslash);
returns the decoded character and the remaining input.  `\uXXXX` in the
high-surrogate range must be followed by a low surrogate, which is combined
into one scalar value. -/
def decEscape : List Char → Option (Char × List Char)
  | [] => none
  | e :: rest =>
    if e = 'u' then
      match rest with
      | h1 :: h2 :: h3 :: h4 :: rest2 =>
        match fromHex4 h1 h2 h3 h4 with
        | none => none
        | some n =>
          if 0xd800 ≤ n ∧ n ≤ 0xdbff then
            match rest2 with
            | b1 :: u1 :: g1 :: g2 :: g3 :: g4 :: rest3 =>
              if b1 = bsl ∧ u1 = 'u' then
                match fromHex4 g1 g2 g3 g4 with
                | none => none
                | some m =>
                  if 0xdc00 ≤ m ∧ m ≤ 0xdfff then
                    some (Char.ofNat (0x10000 + (n - 0xd800) * 0x400 + (m - 0xdc00)), rest3)
                  else none
              else none
            | _ => none
          else if 0xdc00 ≤ n ∧ n ≤ 0xdfff then none
          else some (Char.ofNat n, rest2)
      | _ => none
    else
      match decShortEscape e with
      | none => none
      | some ch => some (ch, rest)

theorem decEscape_length {l : List Char} {p : Char × List Char}
    (h : decEscape l = some p) : p.2.length < l.length := by
  unfold decEscape at h
  repeat' split at h
  any_goals exact (Option.noConfusion h)
  all_goals obtain rfl := Option.some.inj h
  all_goals simp
  all_goals omega

/-- Decode the body of a JSON string (after the opening quote), accumulating
characters until the closing quote. -/
def decStrAux (s : List Char) (acc : List Char) : Option (String × List Char) :=
  match s with
  | [] => none
  | c :: rest =>
    if c = dq then some (String.mk acc.reverse, rest)
    else if c = bsl then
      match h : decEscape rest with
      | none => none
      | some p => decStrAux p.2 (p.1 :: acc)
    else if c.toNat < 32 then none
    else decStrAux rest (c :: acc)
termination_by s.length
decreasing_by
  · have := decEscape_length h
    simp only [List.length_cons]
    omega
  · simp only [List.length_cons]
    omega

/-- Decode a JSON string, opening quote included. -/
def decJsonStr : List Char → Option (String × List Char)
  | [] => none
  | c :: rest => if c = dq then decStrAux rest [] else none

/-- Expect an exact sequence of characters, returning the remainder. -/
def expectChars : List Char → List Char → Option (List Char)
  | [], s => some s
  | _ :: _, [] => none
  | c :: cs, d :: ds => if c = d then expectChars cs ds else none

/-- Decode one `{"name": ..., "nace": ...}` object as emitted by
`jsonSector`. -/
def decodeSector (s : List Char) : Option (NaceInfo × List Char) :=
  (expectChars ("\x7b\"name\": ".data) s).bind fun s1 =>
    (decJsonStr s1).bind fun q1 =>
      (expectChars (", \"nace\": ".data) q1.2).bind fun s3 =>
        (decJsonStr s3).bind fun q2 =>
          (expectChars [rb] q2.2).bind fun s5 =>
            some (NaceInfo.mk q1.1 q2.1, s5)

theorem expectChars_length (p : List Char) : ∀ {s r : List Char},
    expectChars p s = some r → r.length ≤ s.length := by
  induction p with
  | nil =>
    intro s r h
    obtain rfl := Option.some.inj h
    exact le_rfl
  | cons c cs ih =>
    intro s r h
    match s with
    | [] => exact (Option.noConfusion h)
    | d :: ds =>
      unfold expectChars at h
      split at h
      · exact le_trans (ih h) (by simp)
      · exact (Option.noConfusion h)

theorem decStrAux_length_fuel : ∀ (n : Nat) (s acc : List Char) (p : String × List Char),
    s.length ≤ n → decStrAux s acc = some p → p.2.length < s.length := by
  intro n
  induction n with
  | zero =>
    intro s acc p hle h
    match s with
    | [] => simp [decStrAux] at h
    | c :: rest => simp at hle
  | succ n ih =>
    intro s acc p hle h
    match s with
    | [] => simp [decStrAux] at h
    | c :: rest =>
      unfold decStrAux at h
      by_cases hq : c = dq
      · rw [if_pos hq] at h
        obtain rfl := Option.some.inj h
        simp
      · rw [if_neg hq] at h
        by_cases hb : c = bsl
        · rw [if_pos hb] at h
          split at h
          · exact (Option.noConfusion h)
          · rename_i q he
            have hl := decEscape_length he
            simp only [List.length_cons] at hle ⊢
            have := ih q.2 (q.1 :: acc) p (by omega) h
            omega
        · rw [if_neg hb] at h
          by_cases hc : c.toNat < 32
          · rw [if_pos hc] at h
            exact (Option.noConfusion h)
          · rw [if_neg hc] at h
            simp only [List.length_cons] at hle ⊢
            have := ih rest (c :: acc) p (by omega) h
            omega

theorem decStrAux_length {s acc : List Char} {p : String × List Char}
    (h : decStrAux s acc = some p) : p.2.length < s.length :=
  decStrAux_length_fuel s.length s acc p le_rfl h

theorem decJsonStr_length {s : List Char} {p : String × List Char}
    (h : decJsonStr s = some p) : p.2.length < s.length := by
  match s with
  | [] => simp [decJsonStr] at h
  | c :: rest =>
    have h' : (if c = dq then decStrAux rest [] else none) = some p := h
    by_cases hq : c = dq
    · rw [if_pos hq] at h'
      have := decStrAux_length h'
      simp only [List.length_cons]
      omega
    · rw [if_neg hq] at h'
      exact Option.noConfusion h'

theorem decodeSector_length {s : List Char} {p : NaceInfo × List Char}
    (h : decodeSector s = some p) : p.2.length < s.length := by
  simp only [decodeSector, Option.bind_eq_some] at h
  obtain ⟨s1, h1, q1, h2, s3, h3, q2, h4, s5, h5, h6⟩ := h
  have hp2 : p.2 = s5 := by rw [← Option.some.inj h6]
  have l1 := expectChars_length _ h1
  have l2 := decJsonStr_length h2
  have l3 := expectChars_length _ h3
  have l4 := decJsonStr_length h4
  have l5 := expectChars_length _ h5
  rw [hp2]
  omega

/-- Decode the tail of a nonempty JSON array of sector objects: one object,
then either `]` (end) or `", "` and the rest of the array. -/
def decodeSectorsAux (s : List Char) : Option (List NaceInfo × List Char) :=
  match h : decodeSector s with
  | none => none
  | some q =>
    match h2 : q.2 with
    | [] => none
    | c :: r2 =>
      if c = ']' then some ([q.1], r2)
      else
        match r2 with
        | [] => none
        | c2 :: r3 =>
          if c = ',' ∧ c2 = ' ' then
            match decodeSectorsAux r3 with
            | none => none
            | some qq => some (q.1 :: qq.1, qq.2)
          else none
termination_by s.length
decreasing_by
  have := decodeSector_length h
  simp only [h2, List.length_cons] at this
  omega

/-- Decode a JSON array of sector objects. -/
def decodeSectorListTop : List Char → Option (List NaceInfo × List Char)
  | [] => none
  | c :: rest =>
    if c = '[' then
      match rest with
      | [] => none
      | d :: _ => if d = ']' then some ([], rest.tail) else decodeSectorsAux rest
    else none

/-- Decode one `"key": "value"` member as emitted by `jsonObj`. -/
def decodeObjEntry (s : List Char) : Option ((String × String) × List Char) :=
  (decJsonStr s).bind fun q1 =>
    (expectChars (": ".data) q1.2).bind fun s2 =>
      (decJsonStr s2).bind fun q2 =>
        some ((q1.1, q2.1), q2.2)

theorem decodeObjEntry_length {s : List Char} {p : (String × String) × List Char}
    (h : decodeObjEntry s = some p) : p.2.length < s.length := by
  simp only [decodeObjEntry, Option.bind_eq_some] at h
  obtain ⟨q1, h1, s2, h2, q2, h3, h4⟩ := h
  have hp2 : p.2 = q2.2 := by rw [← Option.some.inj h4]
  have l1 := decJsonStr_length h1
  have l2 := expectChars_length _ h2
  have l3 := decJsonStr_length h3
  rw [hp2]
  omega

/-- Decode the tail of a nonempty JSON object of string members. -/
def decodeObjAux (s : List Char) : Option (Dict × List Char) :=
  match h : decodeObjEntry s with
  | none => none
  | some q =>
    match h2 : q.2 with
    | [] => none
    | c :: r2 =>
      if c = rb then some ([q.1], r2)
      else
        match r2 with
        | [] => none
        | c2 :: r3 =>
          if c = ',' ∧ c2 = ' ' then
            match decodeObjAux r3 with
            | none => none
            | some qq => some (q.1 :: qq.1, qq.2)
          else none
termination_by s.length
decreasing_by
  have := decodeObjEntry_length h
  simp only [h2, List.length_cons] at this
  omega

/-- Decode a JSON object with string keys and values. -/
def decodeObjTop : List Char → Option (Dict × List Char)
  | [] => none
  | c :: rest =>
    if c = lb then
      match rest with
      | [] => none
      | d :: _ => if d = rb then some ([], rest.tail) else decodeObjAux rest
    else none

/-- Decode the `$sector_list` / `$bcc_sector_array` payload in full. -/
def decodeSectorArrayPayload (s : String) : Option (List NaceInfo) :=
  match decodeSectorListTop s.data with
  | some (xs, []) => some xs
  | _ => none

/-- Decode the `$smech_mapping` payload in full. -/
def decodeSmechMappingPayload (s : String) : Option Dict :=
  match decodeObjTop s.data with
  | some (d, []) => some d
  | _ => none

/-! ### Round-trip: the decoder inverts the encoder. -/

theorem charValidNat (c : Char) :
    c.toNat < 55296 ∨ (57343 < c.toNat ∧ c.toNat < 1114112) := c.valid

theorem hexVal_hexDigitChar {m : Nat} (h : m < 16) :
    hexVal (hexDigitChar m) = some m := by
  have hall : ∀ mm : Fin 16, hexVal (hexDigitChar mm.val) = some mm.val := by decide
  exact hall ⟨m, h⟩

theorem fromHex4_toHex4 {n : Nat} (h : n < 65536) :
    fromHex4 (hexDigitChar (n / 4096 % 16)) (hexDigitChar (n / 256 % 16))
      (hexDigitChar (n / 16 % 16)) (hexDigitChar (n % 16)) = some n := by
  unfold fromHex4
  rw [hexVal_hexDigitChar (by omega), hexVal_hexDigitChar (by omega),
    hexVal_hexDigitChar (by omega), hexVal_hexDigitChar (by omega)]
  show some (((n / 4096 % 16 * 16 + n / 256 % 16) * 16 + n / 16 % 16) * 16 + n % 16) = some n
  exact congrArg some (by omega)

theorem decEscape_short (e ch : Char) (rest : List Char) (hu : ¬ e = 'u')
    (hs : decShortEscape e = some ch) : decEscape (e :: rest) = some (ch, rest) := by
  simp only [decEscape]
  rw [if_neg hu, hs]

theorem decEscape_u_bmp {n : Nat} (rest : List Char) (hn : n < 65536)
    (hlo : ¬(55296 ≤ n ∧ n ≤ 56319)) (hhi : ¬(56320 ≤ n ∧ n ≤ 57343)) :
    decEscape ('u' :: (toHex4 n ++ rest)) = some (Char.ofNat n, rest) := by
  simp only [decEscape, toHex4, List.cons_append, List.nil_append, if_true]
  rw [fromHex4_toHex4 hn]
  show (if 55296 ≤ n ∧ n ≤ 56319 then _ else _) = _
  rw [if_neg hlo]
  rw [if_neg hhi]

theorem decEscape_u_pair {hi lo : Nat} (rest : List Char)
    (hh1 : 55296 ≤ hi) (hh2 : hi ≤ 56319) (hl1 : 56320 ≤ lo) (hl2 : lo ≤ 57343) :
    decEscape ('u' :: (toHex4 hi ++ bsl :: 'u' :: (toHex4 lo ++ rest)))
      = some (Char.ofNat (65536 + (hi - 55296) * 1024 + (lo - 56320)), rest) := by
  simp only [decEscape, toHex4, List.cons_append, List.nil_append, if_true]
  rw [fromHex4_toHex4 (by omega)]
  show (if 55296 ≤ hi ∧ hi ≤ 56319 then _ else _) = _
  rw [if_pos (And.intro hh1 hh2)]
  rw [if_pos (And.intro trivial trivial)]
  rw [fromHex4_toHex4 (by omega)]
  show (if 56320 ≤ lo ∧ lo ≤ 57343 then _ else _) = _
  rw [if_pos (And.intro hl1 hl2)]

theorem decStrAux_dq (rest acc : List Char) :
    decStrAux (dq :: rest) acc = some (String.mk acc.reverse, rest) := by
  rw [decStrAux.eq_def]
  simp

theorem decStrAux_esc (rest acc : List Char) (q : Char × List Char)
    (he : decEscape rest = some q) :
    decStrAux (bsl :: rest) acc = decStrAux q.2 (q.1 :: acc) := by
  rw [decStrAux.eq_def]
  simp only [show (bsl = dq) = False from by decide, show (bsl = bsl) = True from by decide,
    if_false, if_true]
  split
  · rename_i hne
    rw [he] at hne
    exact Option.noConfusion hne
  · rename_i p hp
    rw [he] at hp
    obtain rfl := Option.some.inj hp
    rfl

theorem decStrAux_plain (c : Char) (rest acc : List Char) (h1 : ¬ c = dq) (h2 : ¬ c = bsl)
    (h3 : ¬ c.toNat < 32) :
    decStrAux (c :: rest) acc = decStrAux rest (c :: acc) := by
  rw [decStrAux.eq_def]
  simp only []
  rw [if_neg h1, if_neg h2, if_neg h3]

theorem decStrAux_encChar (c : Char) (rest acc : List Char) :
    decStrAux (jsonEscapeChar c ++ rest) acc = decStrAux rest (c :: acc) := by
  by_cases h1 : c = dq
  · subst h1
    rw [show jsonEscapeChar dq = [bsl, dq] from rfl]
    simp only [List.cons_append, List.nil_append]
    rw [decStrAux_esc _ _ (dq, rest) (decEscape_short dq dq rest (by decide) rfl)]
  · by_cases h2 : c = bsl
    · subst h2
      rw [show jsonEscapeChar bsl = [bsl, bsl] from rfl]
      simp only [List.cons_append, List.nil_append]
      rw [decStrAux_esc _ _ (bsl, rest) (decEscape_short bsl bsl rest (by decide) rfl)]
    · by_cases h3 : c.toNat = 8
      · obtain rfl : c = Char.ofNat 8 := (Char.ofNat_toNat c).symm.trans (congrArg Char.ofNat h3)
        rw [show jsonEscapeChar (Char.ofNat 8) = [bsl, 'b'] from rfl]
        simp only [List.cons_append, List.nil_append]
        rw [decStrAux_esc _ _ (Char.ofNat 8, rest)
          (decEscape_short 'b' (Char.ofNat 8) rest (by decide) rfl)]
      · by_cases h4 : c.toNat = 9
        · obtain rfl : c = Char.ofNat 9 :=
            (Char.ofNat_toNat c).symm.trans (congrArg Char.ofNat h4)
          rw [show jsonEscapeChar (Char.ofNat 9) = [bsl, 't'] from rfl]
          simp only [List.cons_append, List.nil_append]
          rw [decStrAux_esc _ _ (Char.ofNat 9, rest)
            (decEscape_short 't' (Char.ofNat 9) rest (by decide) rfl)]
        · by_cases h5 : c.toNat = 10
          · obtain rfl : c = Char.ofNat 10 :=
              (Char.ofNat_toNat c).symm.trans (congrArg Char.ofNat h5)
            rw [show jsonEscapeChar (Char.ofNat 10) = [bsl, 'n'] from rfl]
            simp only [List.cons_append, List.nil_append]
            rw [decStrAux_esc _ _ (Char.ofNat 10, rest)
              (decEscape_short 'n' (Char.ofNat 10) rest (by decide) rfl)]
          · by_cases h6 : c.toNat = 12
            · obtain rfl : c = Char.ofNat 12 :=
                (Char.ofNat_toNat c).symm.trans (congrArg Char.ofNat h6)
              rw [show jsonEscapeChar (Char.ofNat 12) = [bsl, 'f'] from rfl]
              simp only [List.cons_append, List.nil_append]
              rw [decStrAux_esc _ _ (Char.ofNat 12, rest)
                (decEscape_short 'f' (Char.ofNat 12) rest (by decide) rfl)]
            · by_cases h7 : c.toNat = 13
              · obtain rfl : c = Char.ofNat 13 :=
                  (Char.ofNat_toNat c).symm.trans (congrArg Char.ofNat h7)
                rw [show jsonEscapeChar (Char.ofNat 13) = [bsl, 'r'] from rfl]
                simp only [List.cons_append, List.nil_append]
                rw [decStrAux_esc _ _ (Char.ofNat 13, rest)
                  (decEscape_short 'r' (Char.ofNat 13) rest (by decide) rfl)]
              · by_cases h8 : 32 ≤ c.toNat ∧ c.toNat ≤ 126
                · have he : jsonEscapeChar c = [c] := by
                    simp only [jsonEscapeChar]
                    rw [if_neg h1, if_neg h2, if_neg h3, if_neg h4, if_neg h5, if_neg h6,
                      if_neg h7, if_pos h8]
                  rw [he]
                  simp only [List.cons_append, List.nil_append]
                  exact decStrAux_plain c rest acc h1 h2 (by omega)
                · by_cases h9 : c.toNat < 65536
                  · have he : jsonEscapeChar c = bsl :: 'u' :: toHex4 c.toNat := by
                      simp only [jsonEscapeChar]
                      rw [if_neg h1, if_neg h2, if_neg h3, if_neg h4, if_neg h5, if_neg h6,
                        if_neg h7, if_neg h8, if_pos h9]
                    rw [he]
                    simp only [List.cons_append, List.nil_append]
                    have hv := charValidNat c
                    rw [decStrAux_esc _ _ (Char.ofNat c.toNat, rest)
                      (decEscape_u_bmp rest h9 (by omega) (by omega))]
                    rw [Char.ofNat_toNat]
                  · have he : jsonEscapeChar c =
                        (bsl :: 'u' :: toHex4 (55296 + (c.toNat - 65536) / 1024))
                          ++ (bsl :: 'u' :: toHex4 (56320 + (c.toNat - 65536) % 1024)) := by
                      simp only [jsonEscapeChar]
                      rw [if_neg h1, if_neg h2, if_neg h3, if_neg h4, if_neg h5, if_neg h6,
                        if_neg h7, if_neg h8, if_neg h9]
                    rw [he]
                    simp only [List.cons_append, List.nil_append, List.append_assoc]
                    have hv := charValidNat c
                    rw [decStrAux_esc _ _
                      (Char.ofNat (65536 + ((55296 + (c.toNat - 65536) / 1024) - 55296) * 1024
                        + ((56320 + (c.toNat - 65536) % 1024) - 56320)), rest)
                      (decEscape_u_pair rest (by omega) (by omega) (by omega) (by omega))]
                    rw [show (65536 + ((55296 + (c.toNat - 65536) / 1024) - 55296) * 1024
                        + ((56320 + (c.toNat - 65536) % 1024) - 56320)) = c.toNat from by omega]
                    rw [Char.ofNat_toNat]

theorem decStrAux_enc (cs : List Char) : ∀ (acc rest : List Char),
    decStrAux (cs.flatMap jsonEscapeChar ++ dq :: rest) acc
      = some (String.mk (acc.reverse ++ cs), rest) := by
  induction cs with
  | nil =>
    intro acc rest
    simp only [List.flatMap_nil, List.nil_append]
    rw [decStrAux_dq]
    simp
  | cons c cs ih =>
    intro acc rest
    simp only [List.flatMap_cons, List.append_assoc]
    rw [decStrAux_encChar, ih]
    simp

theorem decJsonStr_enc (s : String) (rest : List Char) :
    decJsonStr ((jsonStr s).data ++ rest) = some (s, rest) := by
  show decJsonStr ((dq :: (s.data.flatMap jsonEscapeChar ++ [dq])) ++ rest) = some (s, rest)
  simp only [List.cons_append, List.append_assoc, List.singleton_append]
  rw [decJsonStr]
  rw [if_pos rfl]
  rw [decStrAux_enc]
  simp

theorem expectChars_self (p : List Char) (rest : List Char) :
    expectChars p (p ++ rest) = some rest := by
  induction p with
  | nil => rfl
  | cons c cs ih =>
    simp only [List.cons_append]
    rw [expectChars, if_pos rfl]
    exact ih

theorem decodeSector_enc (x : NaceInfo) (rest : List Char) :
    decodeSector ((jsonSector x).data ++ rest) = some (x, rest) := by
  obtain ⟨name, nace⟩ := x
  simp only [jsonSector, String.data_append, List.append_assoc]
  simp only [decodeSector, show ([rb] : List Char) = ['\x7d'] from rfl,
    expectChars_self, Option.some_bind, decJsonStr_enc]

theorem joinComma_sectors_enc : ∀ (x : NaceInfo) (xs : List NaceInfo) (rest : List Char),
    decodeSectorsAux ((joinComma ((x :: xs).map jsonSector)).data ++ ']' :: rest)
      = some (x :: xs, rest) := by
  intro x xs
  induction xs generalizing x with
  | nil =>
    intro rest
    simp only [List.map_cons, List.map_nil, joinComma]
    rw [decodeSectorsAux.eq_def]
    rw [decodeSector_enc]
    simp
  | cons y ys ih =>
    intro rest
    simp only [List.map_cons, joinComma, String.data_append, List.append_assoc]
    rw [decodeSectorsAux.eq_def]
    rw [decodeSector_enc]
    simp only [← List.map_cons]
    simp only [List.cons_append, List.nil_append,
      show (((',' : Char) = ']')) = False from by decide, if_false]
    rw [ih]
    simp



theorem decodeSectorListTop_cons_head (st : List Char) (d : Char) (t : List Char)
    (hst : st = d :: t) (hd : ¬ d = ']') :
    decodeSectorListTop ('[' :: st) = decodeSectorsAux st := by
  subst hst
  simp [decodeSectorListTop, hd]

theorem decodeSectorListTop_enc (xs : List NaceInfo) (rest : List Char) :
    decodeSectorListTop ((jsonSectorArray xs).data ++ rest) = some (xs, rest) := by
  cases xs with
  | nil => simp [jsonSectorArray, jsonArr, joinComma, decodeSectorListTop]
  | cons x xs =>
    have hx : ∃ u, (joinComma ((x :: xs).map jsonSector)).data = '\x7b' :: u := by
      cases xs with
      | nil =>
        refine ⟨("\"name\": ".data ++ ((jsonStr x.name).data ++ (", \"nace\": ".data
          ++ ((jsonStr x.nace).data ++ "\x7d".data)))), ?_⟩
        simp [joinComma, jsonSector, String.data_append]
      | cons y ys =>
        refine ⟨("\"name\": ".data ++ ((jsonStr x.name).data ++ (", \"nace\": ".data
          ++ ((jsonStr x.nace).data ++ ("\x7d".data
          ++ (", ".data ++ (joinComma ((y :: ys).map jsonSector)).data)))))), ?_⟩
        simp [joinComma, jsonSector, String.data_append]
    obtain ⟨u, hu⟩ := hx
    have hdata : (jsonSectorArray (x :: xs)).data
        = '[' :: ((joinComma ((x :: xs).map jsonSector)).data ++ "]".data) := by
      simp [jsonSectorArray, jsonArr, String.data_append]
    rw [hdata]
    simp only [List.cons_append, List.append_assoc, show ("]".data) = [']'] from rfl,
      List.singleton_append]
    rw [decodeSectorListTop_cons_head _ '\x7b' (u ++ ']' :: rest)
      (by rw [hu]; simp) (by decide)]
    exact joinComma_sectors_enc x xs rest

theorem decodeSectorArrayPayload_enc (xs : List NaceInfo) :
    decodeSectorArrayPayload (jsonSectorArray xs) = some xs := by
  unfold decodeSectorArrayPayload
  rw [show (jsonSectorArray xs).data = (jsonSectorArray xs).data ++ [] from
    (List.append_nil _).symm]
  rw [decodeSectorListTop_enc]



theorem decodeObjEntry_enc (p : String × String) (rest : List Char) :
    decodeObjEntry ((jsonStr p.1 ++ ": " ++ jsonStr p.2).data ++ rest) = some (p, rest) := by
  obtain ⟨k, v⟩ := p
  simp only [String.data_append, List.append_assoc]
  simp only [decodeObjEntry, decJsonStr_enc, Option.some_bind, expectChars_self]

theorem decodeObjEntry_enc2 (p : String × String) (rest : List Char) :
    decodeObjEntry ((jsonStr p.1).data ++ ':' :: ' ' :: ((jsonStr p.2).data ++ rest))
      = some (p, rest) := by
  obtain ⟨k, v⟩ := p
  have h := decodeObjEntry_enc (k, v) rest
  simp only [String.data_append, List.append_assoc, List.cons_append, List.nil_append] at h
  exact h

theorem joinComma_obj_enc : ∀ (p : String × String) (d : List (String × String)) (rest : List Char),
    decodeObjAux ((joinComma ((p :: d).map (fun q => jsonStr q.1 ++ ": " ++ jsonStr q.2))).data
      ++ rb :: rest) = some (p :: d, rest) := by
  intro p d
  induction d generalizing p with
  | nil =>
    intro rest
    simp only [List.map_cons, List.map_nil, joinComma, String.data_append,
      List.append_assoc, List.cons_append, List.nil_append]
    rw [decodeObjAux.eq_def]
    rw [decodeObjEntry_enc2]
    simp
  | cons q qs ih =>
    intro rest
    simp only [List.map_cons, joinComma, String.data_append,
      List.append_assoc, List.cons_append, List.nil_append]
    rw [decodeObjAux.eq_def]
    rw [decodeObjEntry_enc2]
    simp only [show (((',' : Char) = rb)) = False from by decide, if_false]
    rw [show ((jsonStr q.1 ++ ": " ++ jsonStr q.2)
        :: List.map (fun r => jsonStr r.1 ++ ": " ++ jsonStr r.2) qs)
      = List.map (fun r => jsonStr r.1 ++ ": " ++ jsonStr r.2) (q :: qs) from rfl]
    rw [ih]
    simp



theorem data_head_cons (s t : String) (c : Char) (u : List Char) (h : s.data = c :: u) :
    ∃ w, (s ++ t).data = c :: w :=
  ⟨u ++ t.data, by rw [String.data_append, h]; simp⟩

theorem decodeObjTop_cons_head (st : List Char) (d : Char) (t : List Char)
    (hst : st = d :: t) (hd : ¬ d = rb) :
    decodeObjTop (lb :: st) = decodeObjAux st := by
  subst hst
  simp [decodeObjTop, hd]

theorem decodeObjTop_enc (d : Dict) (rest : List Char) :
    decodeObjTop ((jsonObj d).data ++ rest) = some (d, rest) := by
  cases d with
  | nil =>
    rw [show (jsonObj []).data = [lb, rb] from rfl]
    simp only [List.cons_append, List.nil_append]
    simp [decodeObjTop]
  | cons p d =>
    have hx : ∃ u,
        (joinComma ((p :: d).map (fun q => jsonStr q.1 ++ ": " ++ jsonStr q.2))).data
          = dq :: u := by
      obtain ⟨w1, hw1⟩ : ∃ w, (jsonStr p.1).data = dq :: w := ⟨_, rfl⟩
      obtain ⟨w2, hw2⟩ := data_head_cons (jsonStr p.1) ": " dq w1 hw1
      obtain ⟨w3, hw3⟩ := data_head_cons _ (jsonStr p.2) dq w2 hw2
      cases d with
      | nil =>
        simp only [List.map_cons, List.map_nil, joinComma]
        exact ⟨w3, hw3⟩
      | cons q qs =>
        simp only [List.map_cons, joinComma]
        obtain ⟨w4, hw4⟩ := data_head_cons _ ", " dq w3 hw3
        exact data_head_cons _ _ dq w4 hw4
    obtain ⟨u, hu⟩ := hx
    have hdata : (jsonObj (p :: d)).data = lb ::
        ((joinComma ((p :: d).map (fun q => jsonStr q.1 ++ ": " ++ jsonStr q.2))).data
          ++ [rb]) := by
      rw [jsonObj, String.data_append, String.data_append]
      rw [show ("\x7b".data) = [lb] from rfl, show ("\x7d".data) = [rb] from rfl]
      simp only [List.cons_append, List.nil_append, List.append_assoc]
    rw [hdata]
    simp only [List.cons_append, List.append_assoc, List.singleton_append]
    rw [decodeObjTop_cons_head _ dq (u ++ rb :: rest) (by rw [hu]; simp) (by decide)]
    exact joinComma_obj_enc p d rest

theorem decodeSmechMappingPayload_enc (d : Dict) :
    decodeSmechMappingPayload (jsonObj d) = some d := by
  unfold decodeSmechMappingPayload
  rw [show (jsonObj d).data = (jsonObj d).data ++ [] from (List.append_nil _).symm]
  rw [decodeObjTop_enc]

theorem except_bind_ok {α β ε : Type} (a : α) (f : α → Except ε β) :
    (Except.ok a : Except ε α).bind f = f a := rfl

theorem except_bind_error {α β ε : Type} (e : ε) (f : α → Except ε β) :
    (Except.error e : Except ε α).bind f = Except.error e := rfl

theorem expect_just_digits_ok {v : String} (f : String) (r : Nat)
    (h : rxDigitsMatch v = true) : expect_just_digits v f r = .ok () := by
  simp [expect_just_digits, h]

theorem expect_non_digits_ok {v : String} (f : String) (r : Nat)
    (h : ¬ rxDigitsMatch v = true) : expect_non_digits v f r = .ok () := by
  simp [expect_non_digits, h]

theorem load_smech_step_fresh (out : Dict) (w : List String) (i : Nat) (r : SmechRow)
    (hb : ¬ pyStrip r.bcc_code = "")
    (h1 : rxDigitsMatch (pyStrip r.smech_code) = true)
    (h2 : rxDigitsMatch (pyStrip r.bcc_code) = true)
    (hg : dictGet? out (pyStrip r.smech_code) = none) :
    load_smech_step (out, w) (i, r)
      = .ok (dictSet out (pyStrip r.smech_code) (pyStrip r.bcc_code), w) := by
  simp only [load_smech_step, if_neg hb]
  rw [expect_just_digits_ok _ _ h1, expect_just_digits_ok _ _ h2]
  simp only [except_bind_ok, hg]
  rfl



theorem loadSmechAux_nil (st : Dict × List String) : loadSmechAux st [] = .ok st := rfl

theorem loadSmechAux_cons (st : Dict × List String) (x : Nat × SmechRow)
    (xs : List (Nat × SmechRow)) :
    loadSmechAux st (x :: xs) = (load_smech_step st x).bind fun st2 => loadSmechAux st2 xs := rfl

theorem load_smech_step_existing (out : Dict) (w : List String) (i : Nat) (r : SmechRow)
    (v : String) (hb : ¬ pyStrip r.bcc_code = "")
    (h1 : rxDigitsMatch (pyStrip r.smech_code) = true)
    (h2 : rxDigitsMatch (pyStrip r.bcc_code) = true)
    (hg : dictGet? out (pyStrip r.smech_code) = some v) :
    load_smech_step (out, w) (i, r)
      = if v ≠ pyStrip r.bcc_code then .error (smechDupMsg (pyStrip r.smech_code) i)
        else .ok (dictSet out (pyStrip r.smech_code) (pyStrip r.bcc_code), w) := by
  simp only [load_smech_step, if_neg hb]
  rw [expect_just_digits_ok _ _ h1, expect_just_digits_ok _ _ h2]
  simp only [except_bind_ok, hg]
  rfl

theorem dictGet?_nil (k : String) : dictGet? [] k = none := rfl

theorem dictGet?_cons_self (k v : String) (rest : Dict) :
    dictGet? ((k, v) :: rest) k = some v := by
  simp [dictGet?, List.find?]

theorem dictSet_nil (k v : String) : dictSet [] k v = [(k, v)] := by
  simp [dictSet, dictContains]

theorem dictSet_singleton_self (k v v2 : String) :
    dictSet [(k, v)] k v2 = [(k, v2)] := by
  simp [dictSet, dictContains]

/-- C3: in `load_smech_to_bcc`, for two input rows with the same trimmed
`smech_code` (both with nonempty, digit-only trimmed codes): if their trimmed
`bcc_code`s are equal the load succeeds and records the mapping exactly once
(idempotent repeat); if they differ the load raises the duplicate-mapping
error naming the code and the later row's number (row 3). -/
theorem smech_loader_duplicate_source_rows (r1 r2 : SmechRow)
    (hs : pyStrip r1.smech_code = pyStrip r2.smech_code)
    (hb1 : ¬ pyStrip r1.bcc_code = "") (hb2 : ¬ pyStrip r2.bcc_code = "")
    (hd1 : rxDigitsMatch (pyStrip r1.smech_code) = true)
    (hd2 : rxDigitsMatch (pyStrip r1.bcc_code) = true)
    (hd3 : rxDigitsMatch (pyStrip r2.bcc_code) = true) :
    (pyStrip r1.bcc_code = pyStrip r2.bcc_code →
      load_smech_to_bcc [r1, r2]
        = .ok ([(pyStrip r1.smech_code, pyStrip r1.bcc_code)], []))
    ∧ (¬ pyStrip r1.bcc_code = pyStrip r2.bcc_code →
      load_smech_to_bcc [r1, r2]
        = .error (smechDupMsg (pyStrip r1.smech_code) 3)) := by
  unfold load_smech_to_bcc
  rw [show List.enumFrom 2 [r1, r2] = [(2, r1), (3, r2)] from rfl]
  rw [loadSmechAux_cons,
    load_smech_step_fresh [] [] 2 r1 hb1 hd1 hd2 (dictGet?_nil _),
    except_bind_ok, dictSet_nil]
  rw [loadSmechAux_cons,
    load_smech_step_existing [(pyStrip r1.smech_code, pyStrip r1.bcc_code)] [] 3 r2
      (pyStrip r1.bcc_code) hb2 (hs ▸ hd1) hd3 (hs ▸ dictGet?_cons_self _ _ _)]
  constructor
  · intro heq
    rw [if_neg (by simp [heq])]
    rw [except_bind_ok, ← hs, ← heq, dictSet_singleton_self, loadSmechAux_nil]
  · intro hne
    rw [if_pos hne, except_bind_error, hs]



theorem expect_just_digits_err {v : String} (f : String) (r : Nat)
    (h : ¬ rxDigitsMatch v = true) :
    expect_just_digits v f r = .error (justDigitsMsg f v r) := by
  simp [expect_just_digits, h]

theorem load_smech_step_empty (out : Dict) (w : List String) (i : Nat) (r : SmechRow)
    (hb : pyStrip r.bcc_code = "") :
    load_smech_step (out, w) (i, r) = .ok (out, w ++ [smechWarnMsg r]) := by
  simp only [load_smech_step, if_pos hb]

theorem load_smech_step_err1 (out : Dict) (w : List String) (i : Nat) (r : SmechRow)
    (hb : ¬ pyStrip r.bcc_code = "")
    (h1 : ¬ rxDigitsMatch (pyStrip r.smech_code) = true) :
    load_smech_step (out, w) (i, r)
      = .error (justDigitsMsg "smech_code" (pyStrip r.smech_code) i) := by
  simp only [load_smech_step, if_neg hb]
  rw [expect_just_digits_err _ _ h1]
  rfl

theorem load_smech_step_err2 (out : Dict) (w : List String) (i : Nat) (r : SmechRow)
    (hb : ¬ pyStrip r.bcc_code = "")
    (h1 : rxDigitsMatch (pyStrip r.smech_code) = true)
    (h2 : ¬ rxDigitsMatch (pyStrip r.bcc_code) = true) :
    load_smech_step (out, w) (i, r)
      = .error (justDigitsMsg "bcc_code" (pyStrip r.bcc_code) i) := by
  simp only [load_smech_step, if_neg hb]
  rw [expect_just_digits_ok _ _ h1, expect_just_digits_err _ _ h2]
  rfl

theorem loadSmechAux_warns (l : List (Nat × SmechRow)) : ∀ (out : Dict) (w1 w2 : List String),
    (loadSmechAux (out, w1) l).map Prod.fst = (loadSmechAux (out, w2) l).map Prod.fst := by
  induction l with
  | nil => intro out w1 w2; rfl
  | cons x xs ih =>
    intro out w1 w2
    obtain ⟨i, r⟩ := x
    rw [loadSmechAux_cons, loadSmechAux_cons]
    by_cases hb : pyStrip r.bcc_code = ""
    · rw [load_smech_step_empty _ _ _ _ hb, load_smech_step_empty _ _ _ _ hb,
        except_bind_ok, except_bind_ok]
      exact ih out _ _
    · by_cases h1 : rxDigitsMatch (pyStrip r.smech_code) = true
      · by_cases h2 : rxDigitsMatch (pyStrip r.bcc_code) = true
        · cases hg : dictGet? out (pyStrip r.smech_code) with
          | none =>
            rw [load_smech_step_fresh _ _ _ _ hb h1 h2 hg,
              load_smech_step_fresh _ _ _ _ hb h1 h2 hg, except_bind_ok, except_bind_ok]
            exact ih _ _ _
          | some v =>
            rw [load_smech_step_existing _ _ _ _ v hb h1 h2 hg,
              load_smech_step_existing _ _ _ _ v hb h1 h2 hg]
            by_cases hv : v ≠ pyStrip r.bcc_code
            · rw [if_pos hv, if_pos hv, except_bind_error]
            · rw [if_neg hv, if_neg hv, except_bind_ok, except_bind_ok]
              exact ih _ _ _
        · rw [load_smech_step_err2 _ _ _ _ hb h1 h2, load_smech_step_err2 _ _ _ _ hb h1 h2,
            except_bind_error]
      · rw [load_smech_step_err1 _ _ _ _ hb h1, load_smech_step_err1 _ _ _ _ hb h1,
          except_bind_error]

theorem loadSmechAux_filter (l : List (Nat × SmechRow)) : ∀ (out : Dict) (w : List String),
    (loadSmechAux (out, w) l).map Prod.fst
      = (loadSmechAux (out, w)
          (l.filter (fun p => pyStrip p.2.bcc_code ≠ ""))).map Prod.fst := by
  induction l with
  | nil => intro out w; rfl
  | cons x xs ih =>
    intro out w
    obtain ⟨i, r⟩ := x
    by_cases hb : pyStrip r.bcc_code = ""
    · rw [show ((i, r) :: xs).filter (fun p => pyStrip p.2.bcc_code ≠ "")
          = xs.filter (fun p => pyStrip p.2.bcc_code ≠ "") from by
        simp [List.filter, hb]]
      rw [loadSmechAux_cons, load_smech_step_empty _ _ _ _ hb, except_bind_ok]
      rw [loadSmechAux_warns xs out (w ++ [smechWarnMsg r]) w]
      exact ih out w
    · rw [show ((i, r) :: xs).filter (fun p => pyStrip p.2.bcc_code ≠ "")
          = (i, r) :: xs.filter (fun p => pyStrip p.2.bcc_code ≠ "") from by
        simp [List.filter, hb]]
      rw [loadSmechAux_cons, loadSmechAux_cons]
      cases hst : load_smech_step (out, w) (i, r) with
      | error e => rw [except_bind_error, except_bind_error]
      | ok st2 =>
        rw [except_bind_ok, except_bind_ok]
        obtain ⟨d2, w2⟩ := st2
        exact ih d2 w2



theorem loadBccAux_nil (out : Dict) : loadBccAux out [] = .ok out := rfl

theorem loadBccAux_cons (out : Dict) (x : Nat × BccRow) (xs : List (Nat × BccRow)) :
    loadBccAux out (x :: xs) = (load_bcc_step out x).bind fun out2 => loadBccAux out2 xs := rfl

theorem load_bcc_step_skip (out : Dict) (i : Nat) (r : BccRow)
    (hf : ¬ useForBcc r = true) : load_bcc_step out (i, r) = .ok out := by
  simp only [load_bcc_step]
  rw [if_pos]
  simp [hf]

theorem load_bcc_step_fresh (out : Dict) (i : Nat) (r : BccRow)
    (hf : useForBcc r = true)
    (h1 : rxDigitsMatch (pyStrip r.nace_code) = true)
    (h2 : ¬ rxDigitsMatch (pyStrip r.bcc_name) = true)
    (hc : ¬ dictContains out (pyStrip r.nace_code) = true) :
    load_bcc_step out (i, r) = .ok (dictSet out (pyStrip r.nace_code) (pyStrip r.bcc_name)) := by
  simp only [load_bcc_step]
  rw [if_neg (by simp [hf])]
  rw [expect_just_digits_ok _ _ h1, expect_non_digits_ok _ _ h2]
  rw [if_neg hc]
  rfl

theorem load_bcc_step_dup (out : Dict) (i : Nat) (r : BccRow)
    (hf : useForBcc r = true)
    (h1 : rxDigitsMatch (pyStrip r.nace_code) = true)
    (h2 : ¬ rxDigitsMatch (pyStrip r.bcc_name) = true)
    (hc : dictContains out (pyStrip r.nace_code) = true) :
    load_bcc_step out (i, r) = .error (naceDupMsg (pyStrip r.nace_code) i) := by
  simp only [load_bcc_step]
  rw [if_neg (by simp [hf])]
  rw [expect_just_digits_ok _ _ h1, expect_non_digits_ok _ _ h2]
  rw [if_pos hc]
  rfl

theorem dictContains_nil (k : String) : dictContains [] k = false := rfl

theorem dictContains_cons_self (k v : String) (rest : Dict) :
    dictContains ((k, v) :: rest) k = true := by
  simp [dictContains]

/-- C5: in `load_bcc_sectors`, an included (flagged) row whose trimmed
`nace_code` was already recorded always fails with the duplicate-code error
naming the code and the row number — the conclusion does not depend on
whether the display names agree (the witness instantiates equal names). -/
theorem bcc_loader_duplicate_code_always_fatal (r1 r2 : BccRow)
    (hf1 : useForBcc r1 = true) (hf2 : useForBcc r2 = true)
    (hc : pyStrip r1.nace_code = pyStrip r2.nace_code)
    (h11 : rxDigitsMatch (pyStrip r1.nace_code) = true)
    (h12 : ¬ rxDigitsMatch (pyStrip r1.bcc_name) = true)
    (h22 : ¬ rxDigitsMatch (pyStrip r2.bcc_name) = true) :
    load_bcc_sectors [r1, r2] = .error (naceDupMsg (pyStrip r1.nace_code) 3) := by
  unfold load_bcc_sectors
  rw [show List.enumFrom 2 [r1, r2] = [(2, r1), (3, r2)] from rfl]
  rw [loadBccAux_cons,
    load_bcc_step_fresh [] 2 r1 hf1 h11 h12 (by simp [dictContains_nil]),
    except_bind_ok, dictSet_nil]
  rw [loadBccAux_cons,
    load_bcc_step_dup [(pyStrip r1.nace_code, pyStrip r1.bcc_name)] 3 r2 hf2
      (hc ▸ h11) h22 (hc ▸ dictContains_cons_self _ _ _),
    except_bind_error, hc]



/-- C6 counterexample: on `"123\n"` — a nonempty value containing the
non-digit `'\n'` — `expect_just_digits` does NOT raise, because the `$` of
`RX_DIGITS` also matches just before a single trailing newline.  The claim
"raises iff the value is empty or contains at least one non-digit" is
therefore false at this input. -/
theorem expect_just_digits_newline_counterexample :
    ("123\n" : String) ≠ ""
    ∧ (∃ c ∈ ("123\n" : String).data, c.isDigit = false)
    ∧ expect_just_digits "123\n" "smech_code" 2 = .ok () :=
  ⟨by decide, by decide, by rfl⟩

/-- C6 (amended): `expect_just_digits(value, field, row)` returns the
validation error built from the field name, the row number and the (repr of
the) value iff, after removing at most one trailing newline, `value` is empty
or contains a non-digit character — and returns `ok` otherwise; as a Lean
function it is pure and total over all string inputs. -/
theorem expect_just_digits_spec (v f : String) (r : Nat) :
    (expect_just_digits v f r = .error (justDigitsMsg f v r)
      ↔ (stripOneTrailingNewline v.data = []
          ∨ ∃ c ∈ stripOneTrailingNewline v.data, c.isDigit = false))
    ∧ (expect_just_digits v f r = .ok ()
      ↔ ¬(stripOneTrailingNewline v.data = []
          ∨ ∃ c ∈ stripOneTrailingNewline v.data, c.isDigit = false)) := by
  have hb1 : (rxDigitsMatch v = true)
      ↔ (stripOneTrailingNewline v.data ≠ []
          ∧ ∀ c ∈ stripOneTrailingNewline v.data, c.isDigit = true) := by
    unfold rxDigitsMatch stripOneTrailingNewline
    constructor
    · intro h
      simp only [Bool.or_eq_true, Bool.and_eq_true, List.all_eq_true, ne_eq,
        decide_eq_true_eq, beq_iff_eq] at h
      rcases h with ⟨hne, hall⟩ | ⟨⟨hlast, hne⟩, hall⟩
      · by_cases hl : v.data.getLast? = some (Char.ofNat 10)
        · exfalso
          have hmem : Char.ofNat 10 ∈ v.data := List.mem_of_mem_getLast? hl
          have := hall _ hmem
          simp [Char.isDigit] at this
        · rw [if_neg hl]
          exact ⟨hne, hall⟩
      · rw [if_pos hlast]
        exact ⟨hne, hall⟩
    · rintro ⟨hne, hall⟩
      simp only [Bool.or_eq_true, Bool.and_eq_true, List.all_eq_true, ne_eq,
        decide_eq_true_eq, beq_iff_eq]
      by_cases hl : v.data.getLast? = some (Char.ofNat 10)
      · rw [if_pos hl] at hne hall
        exact Or.inr ⟨⟨hl, hne⟩, hall⟩
      · rw [if_neg hl] at hne hall
        exact Or.inl ⟨hne, hall⟩
  have hb2 : ¬(stripOneTrailingNewline v.data = []
        ∨ ∃ c ∈ stripOneTrailingNewline v.data, c.isDigit = false)
      ↔ (stripOneTrailingNewline v.data ≠ []
          ∧ ∀ c ∈ stripOneTrailingNewline v.data, c.isDigit = true) := by
    constructor
    · intro h
      push_neg at h
      exact ⟨h.1, fun c hc => by
        have := h.2 c hc
        simpa using this⟩
    · rintro ⟨h1, h2⟩
      push_neg
      exact ⟨h1, fun c hc => by simp [h2 c hc]⟩
  have hb := hb1.trans hb2.symm
  by_cases hm : rxDigitsMatch v = true
  · have hneg := hb.mp hm
    refine ⟨⟨fun habs => ?_, fun hcontra => absurd hcontra hneg⟩,
      ⟨fun _ => hneg, fun _ => by simp [expect_just_digits, hm]⟩⟩
    simp [expect_just_digits, hm] at habs
  · have hpos : stripOneTrailingNewline v.data = []
        ∨ ∃ c ∈ stripOneTrailingNewline v.data, c.isDigit = false := by
      by_contra hc
      exact hm (hb.mpr hc)
    refine ⟨⟨fun _ => hpos, fun _ => by simp [expect_just_digits, hm]⟩,
      ⟨fun hok => ?_, fun hcon => absurd hpos hcon⟩⟩
    simp [expect_just_digits, hm] at hok

/-- C7: in `load_smech_to_bcc`, a row whose `bcc_code` trims to empty only
appends a warning and leaves the dict unchanged (never aborts), and the
loader's dict-and-error outcome on any row list equals the outcome on the
same list with all empty-`bcc_code` rows removed — so the load succeeds iff
the remaining rows cause no error. -/
theorem smech_loader_empty_target_skipped (i : Nat) (r : SmechRow) (hb : pyStrip r.bcc_code = "") :
    (∀ (st : Dict × List String) (l : List (Nat × SmechRow)),
      loadSmechAux st ((i, r) :: l) = loadSmechAux (st.1, st.2 ++ [smechWarnMsg r]) l)
    ∧ ∀ (l : List (Nat × SmechRow)) (out : Dict) (w : List String),
      (loadSmechAux (out, w) l).map Prod.fst
        = (loadSmechAux (out, w)
            (l.filter (fun p => pyStrip p.2.bcc_code ≠ ""))).map Prod.fst := by
  constructor
  · intro st l
    obtain ⟨out, w⟩ := st
    rw [loadSmechAux_cons, load_smech_step_empty _ _ _ _ hb, except_bind_ok]
  · intro l out w
    exact loadSmechAux_filter l out w

/-- C10: the empty-`bcc_code` check runs before any field validation: a row
with an empty trimmed `bcc_code` and a non-digit (or empty) `smech_code`
never raises — the step returns `ok` with only a warning, the fold continues,
and a one-row load succeeds. -/
theorem empty_target_skips_validation (i : Nat) (r : SmechRow) (st : Dict × List String)
    (hb : pyStrip r.bcc_code = "")
    (hs : ¬ rxDigitsMatch (pyStrip r.smech_code) = true) :
    load_smech_step st (i, r) = .ok (st.1, st.2 ++ [smechWarnMsg r])
    ∧ (∀ l, loadSmechAux st ((i, r) :: l) = loadSmechAux (st.1, st.2 ++ [smechWarnMsg r]) l)
    ∧ load_smech_to_bcc [r] = .ok ([], [smechWarnMsg r]) := by
  obtain ⟨out, w⟩ := st
  refine ⟨load_smech_step_empty _ _ _ _ hb, ?_, ?_⟩
  · intro l
    rw [loadSmechAux_cons, load_smech_step_empty _ _ _ _ hb, except_bind_ok]
  · unfold load_smech_to_bcc
    rw [show List.enumFrom 2 [r] = [(2, r)] from rfl]
    rw [loadSmechAux_cons, load_smech_step_empty _ _ _ _ hb, except_bind_ok,
      loadSmechAux_nil]
    simp



theorem expect_non_digits_err {v : String} (f : String) (r : Nat)
    (h : rxDigitsMatch v = true) :
    expect_non_digits v f r = .error (nonDigitsMsg f v r) := by
  simp [expect_non_digits, h]

theorem load_bcc_step_verr1 (out : Dict) (i : Nat) (r : BccRow)
    (hf : useForBcc r = true)
    (h1 : ¬ rxDigitsMatch (pyStrip r.nace_code) = true) :
    load_bcc_step out (i, r)
      = .error (justDigitsMsg "nace_code" (pyStrip r.nace_code) i) := by
  simp only [load_bcc_step]
  rw [if_neg (by simp [hf])]
  rw [expect_just_digits_err _ _ h1]
  rfl

theorem load_bcc_step_verr2 (out : Dict) (i : Nat) (r : BccRow)
    (hf : useForBcc r = true)
    (h1 : rxDigitsMatch (pyStrip r.nace_code) = true)
    (h2 : rxDigitsMatch (pyStrip r.bcc_name) = true) :
    load_bcc_step out (i, r)
      = .error (nonDigitsMsg "bcc_name" (pyStrip r.bcc_name) i) := by
  simp only [load_bcc_step]
  rw [if_neg (by simp [hf])]
  rw [expect_just_digits_ok _ _ h1, expect_non_digits_err _ _ h2]
  rfl

theorem dictSet_append (d : Dict) (k v : String) (hc : ¬ dictContains d k = true) :
    dictSet d k v = d ++ [(k, v)] := by
  simp [dictSet, hc]

theorem dictContains_append (d e : Dict) (k : String) :
    dictContains (d ++ e) k = (dictContains d k || dictContains e k) := by
  simp [dictContains, List.any_append]

theorem load_bcc_step_ok_shape (out : Dict) (i : Nat) (r : BccRow) (out2 : Dict)
    (h : load_bcc_step out (i, r) = .ok out2) :
    (¬ useForBcc r = true ∧ out2 = out)
    ∨ (useForBcc r = true ∧ dictContains out (pyStrip r.nace_code) = false
        ∧ out2 = out ++ [(pyStrip r.nace_code, pyStrip r.bcc_name)]) := by
  by_cases hf : useForBcc r = true
  · right
    by_cases h1 : rxDigitsMatch (pyStrip r.nace_code) = true
    · by_cases h2 : rxDigitsMatch (pyStrip r.bcc_name) = true
      · rw [load_bcc_step_verr2 _ _ _ hf h1 h2] at h
        exact Except.noConfusion h
      · by_cases hc : dictContains out (pyStrip r.nace_code) = true
        · rw [load_bcc_step_dup _ _ _ hf h1 h2 hc] at h
          exact Except.noConfusion h
        · rw [load_bcc_step_fresh _ _ _ hf h1 h2 hc] at h
          refine ⟨hf, by simpa using hc, ?_⟩
          rw [← Except.ok.inj h, dictSet_append _ _ _ hc]
    · rw [load_bcc_step_verr1 _ _ _ hf h1] at h
      exact Except.noConfusion h
  · left
    rw [load_bcc_step_skip _ _ _ hf] at h
    exact ⟨hf, (Except.ok.inj h).symm⟩

theorem loadBccAux_mono (l : List (Nat × BccRow)) : ∀ (out m : Dict) (k : String),
    loadBccAux out l = .ok m → dictContains out k = true → dictContains m k = true := by
  induction l with
  | nil =>
    intro out m k h hk
    rw [← Except.ok.inj h]
    exact hk
  | cons x xs ih =>
    intro out m k h hk
    obtain ⟨i, r⟩ := x
    rw [loadBccAux_cons] at h
    cases hst : load_bcc_step out (i, r) with
    | error e =>
      rw [hst, except_bind_error] at h
      exact Except.noConfusion h
    | ok out2 =>
      rw [hst, except_bind_ok] at h
      rcases load_bcc_step_ok_shape out i r out2 hst with ⟨_, rfl⟩ | ⟨_, _, rfl⟩
      · exact ih _ m k h hk
      · exact ih _ m k h (by rw [dictContains_append, hk]; rfl)

theorem loadBccAux_mem (l : List (Nat × BccRow)) : ∀ (out m : Dict),
    loadBccAux out l = .ok m → ∀ p ∈ m, p ∈ out
      ∨ ∃ x ∈ l, useForBcc x.2 = true ∧ pyStrip x.2.nace_code = p.1
          ∧ pyStrip x.2.bcc_name = p.2 := by
  induction l with
  | nil =>
    intro out m h p hp
    rw [← Except.ok.inj h] at hp
    exact Or.inl hp
  | cons x xs ih =>
    intro out m h p hp
    obtain ⟨i, r⟩ := x
    rw [loadBccAux_cons] at h
    cases hst : load_bcc_step out (i, r) with
    | error e =>
      rw [hst, except_bind_error] at h
      exact Except.noConfusion h
    | ok out2 =>
      rw [hst, except_bind_ok] at h
      rcases load_bcc_step_ok_shape out i r out2 hst with ⟨_, rfl⟩ | ⟨hf, _, rfl⟩
      · rcases ih _ m h p hp with hin | ⟨x, hx, hrest⟩
        · exact Or.inl hin
        · exact Or.inr ⟨x, List.mem_cons_of_mem _ hx, hrest⟩
      · rcases ih _ m h p hp with hin | ⟨x, hx, hrest⟩
        · rcases List.mem_append.mp hin with hin2 | hin2
          · exact Or.inl hin2
          · rcases List.mem_singleton.mp hin2 with rfl
            exact Or.inr ⟨(i, r), List.mem_cons_self _ _, hf, rfl, rfl⟩
        · exact Or.inr ⟨x, List.mem_cons_of_mem _ hx, hrest⟩

theorem loadBccAux_flagged (l : List (Nat × BccRow)) : ∀ (out m : Dict),
    loadBccAux out l = .ok m → ∀ x ∈ l, useForBcc x.2 = true →
      dictContains m (pyStrip x.2.nace_code) = true := by
  induction l with
  | nil =>
    intro out m h x hx
    exact absurd hx (List.not_mem_nil x)
  | cons y ys ih =>
    intro out m h x hx hf
    obtain ⟨i, r⟩ := y
    rw [loadBccAux_cons] at h
    cases hst : load_bcc_step out (i, r) with
    | error e =>
      rw [hst, except_bind_error] at h
      exact Except.noConfusion h
    | ok out2 =>
      rw [hst, except_bind_ok] at h
      rcases List.mem_cons.mp hx with rfl | hx2
      · rcases load_bcc_step_ok_shape out i r out2 hst with ⟨hnf, rfl⟩ | ⟨_, _, rfl⟩
        · exact absurd hf hnf
        · exact loadBccAux_mono ys _ m _ h
            (by rw [dictContains_append]; simp [dictContains])
      · exact ih out2 m h x hx2 hf

theorem loadBccAux_filter (l : List (Nat × BccRow)) : ∀ (out : Dict),
    loadBccAux out l = loadBccAux out (l.filter (fun p => useForBcc p.2)) := by
  induction l with
  | nil => intro out; rfl
  | cons x xs ih =>
    intro out
    obtain ⟨i, r⟩ := x
    by_cases hf : useForBcc r = true
    · rw [show ((i, r) :: xs).filter (fun p => useForBcc p.2)
          = (i, r) :: xs.filter (fun p => useForBcc p.2) from by
        simp [List.filter, hf]]
      rw [loadBccAux_cons, loadBccAux_cons]
      cases hst : load_bcc_step out (i, r) with
      | error e => rw [except_bind_error, except_bind_error]
      | ok out2 =>
        rw [except_bind_ok, except_bind_ok]
        exact ih out2
    · rw [show ((i, r) :: xs).filter (fun p => useForBcc p.2)
          = xs.filter (fun p => useForBcc p.2) from by
        simp [List.filter, hf]]
      rw [loadBccAux_cons, load_bcc_step_skip _ _ _ hf, except_bind_ok]
      exact ih out

theorem mem_enumFrom_snd {α : Type} : ∀ (l : List α) (n : Nat) (x : Nat × α),
    x ∈ List.enumFrom n l → x.2 ∈ l := by
  intro l
  induction l with
  | nil => intro n x h; exact absurd h (List.not_mem_nil x)
  | cons a as ih =>
    intro n x h
    rw [List.enumFrom] at h
    rcases List.mem_cons.mp h with rfl | h2
    · exact List.mem_cons_self _ _
    · exact List.mem_cons_of_mem _ (ih (n + 1) x h2)

theorem mem_enumFrom_of_mem {α : Type} : ∀ (l : List α) (n : Nat) (r : α),
    r ∈ l → ∃ i, (i, r) ∈ List.enumFrom n l := by
  intro l
  induction l with
  | nil => intro n r h; exact absurd h (List.not_mem_nil r)
  | cons a as ih =>
    intro n r h
    rcases List.mem_cons.mp h with rfl | h2
    · exact ⟨n, by rw [List.enumFrom]; exact List.mem_cons_self _ _⟩
    · obtain ⟨i, hi⟩ := ih (n + 1) r h2
      exact ⟨i, by rw [List.enumFrom]; exact List.mem_cons_of_mem _ hi⟩



/-- C4: `load_bcc_sectors` behaves identically on a row list and on its
restriction to rows whose include flag trims/lower-cases to x/y/yes (skipped
rows have no effect, no validation), and on success the output dict's entries
are exactly the flagged rows' trimmed (nace_code, bcc_name) pairs: every entry
comes from a flagged row and every flagged row's code is present. -/
theorem bcc_loader_include_flag_filter :
    (∀ (l : List (Nat × BccRow)) (out : Dict),
      loadBccAux out l = loadBccAux out (l.filter (fun p => useForBcc p.2)))
    ∧ ∀ (rows : List BccRow) (m : Dict), load_bcc_sectors rows = .ok m →
      (∀ p ∈ m, ∃ r ∈ rows, useForBcc r = true ∧ pyStrip r.nace_code = p.1
        ∧ pyStrip r.bcc_name = p.2)
      ∧ (∀ r ∈ rows, useForBcc r = true →
          dictContains m (pyStrip r.nace_code) = true) := by
  refine ⟨fun l out => loadBccAux_filter l out, fun rows m h => ⟨?_, ?_⟩⟩
  · intro p hp
    rcases loadBccAux_mem _ _ _ h p hp with hin | ⟨x, hx, hf, ha, hb⟩
    · exact absurd hin (List.not_mem_nil p)
    · exact ⟨x.2, mem_enumFrom_snd _ _ _ hx, hf, ha, hb⟩
  · intro r hr hf
    obtain ⟨i, hi⟩ := mem_enumFrom_of_mem rows 2 r hr
    exact loadBccAux_flagged _ _ _ h (i, r) hi hf

theorem crossCheck_err (bcc : Dict) : ∀ (l : Dict),
    (∃ p ∈ l, dictContains bcc p.2 = false) →
    ∃ s t, (s, t) ∈ l ∧ dictContains bcc t = false
      ∧ crossCheck bcc l = .error (refErrorMsg s t) := by
  intro l
  induction l with
  | nil =>
    rintro ⟨p, hp, _⟩
    exact absurd hp (List.not_mem_nil p)
  | cons q rest ih =>
    rintro ⟨p, hp, hpc⟩
    by_cases hc : dictContains bcc q.2 = true
    · have hstep : crossCheck bcc (q :: rest) = crossCheck bcc rest := by
        simp [crossCheck, hc]
      have hex : ∃ p ∈ rest, dictContains bcc p.2 = false := by
        rcases List.mem_cons.mp hp with rfl | h2
        · rw [hpc] at hc
          exact absurd hc (by simp)
        · exact ⟨p, h2, hpc⟩
      obtain ⟨s, t, hst, htc, hcc⟩ := ih hex
      exact ⟨s, t, List.mem_cons_of_mem _ hst, htc, by rw [hstep, hcc]⟩
    · refine ⟨q.1, q.2, by simp, by simpa using hc, by simp [crossCheck, hc]⟩

theorem main_eq (args : Args) (run : List String → String → Except String String)
    (smechRows : List SmechRow) (bccRows : List BccRow) (ts : String)
    (smech : Dict) (warns : List String) (bcc : Dict)
    (h1 : load_smech_to_bcc smechRows = .ok (smech, warns))
    (h2 : load_bcc_sectors bccRows = .ok bcc) :
    main args run smechRows bccRows ts
      = (crossCheck bcc smech).bind (fun _ =>
          (if args.prettier then
              prettier_format_code run (benchmark_code ts smech bcc) "naces.ts"
                args.prettier_cmd (args.prettier_config_benchmark <|> args.prettier_config)
            else .ok (benchmark_code ts smech bcc)).bind (fun bench2 =>
            (if args.prettier then
                prettier_format_code run (bcc_sectors_code ts bcc) "sectors.data.ts"
                  args.prettier_cmd (args.prettier_config_bcc <|> args.prettier_config)
              else .ok (bcc_sectors_code ts bcc)).bind (fun bcc2 =>
              .ok [WriteOp.mk (args.output_benchmark.getD "dist/naces.ts") bench2,
                WriteOp.mk (args.output_bcc.getD "dist/sectors.data.ts") bcc2]))) := by
  by_cases hp : args.prettier = true
  · simp only [main, h1, h2, hp, if_true]
    rfl
  · simp only [main, h1, h2, if_neg hp]
    rfl

/-- C1: after both loaders succeed, if some `(source, target)` pair of the
SMECH mapping has a `target` absent from the BCC sector dict then `main` fails
with the referential-integrity error naming a failing pair's source and target
codes (and, the run being an `Except`, performs no file writes); conversely,
if `main` returns write operations then every target code was present. -/
theorem cross_reference_check_gates_outputs (args : Args) (run : List String → String → Except String String)
    (smechRows : List SmechRow) (bccRows : List BccRow) (ts : String)
    (smech : Dict) (warns : List String) (bcc : Dict)
    (h1 : load_smech_to_bcc smechRows = .ok (smech, warns))
    (h2 : load_bcc_sectors bccRows = .ok bcc) :
    ((∃ p ∈ smech, dictContains bcc p.2 = false) →
      ∃ s t, (s, t) ∈ smech ∧ dictContains bcc t = false ∧
        main args run smechRows bccRows ts = .error (refErrorMsg s t))
    ∧ (∀ ws, main args run smechRows bccRows ts = .ok ws →
        ∀ p ∈ smech, dictContains bcc p.2 = true) := by
  have hm := main_eq args run smechRows bccRows ts smech warns bcc h1 h2
  constructor
  · intro hex
    obtain ⟨s, t, hst, htc, hcc⟩ := crossCheck_err bcc smech hex
    exact ⟨s, t, hst, htc, by rw [hm, hcc, except_bind_error]⟩
  · intro ws hws p hp
    by_contra hcon
    have hex : ∃ p ∈ smech, dictContains bcc p.2 = false := ⟨p, hp, by simpa using hcon⟩
    obtain ⟨s, t, _, _, hcc⟩ := crossCheck_err bcc smech hex
    rw [hm, hcc, except_bind_error] at hws
    exact Except.noConfusion hws



/-- C9: with the formatter enabled (and the run having passed loading and
cross-checking), if formatting the first artifact fails `main` aborts with
that error and produces no writes; if the first succeeds and the second fails
`main` likewise aborts with no writes; and any successful run's write list is
exactly the two formatted artifacts — never one without the other. -/
theorem formatter_failure_prevents_writes (args : Args) (run : List String → String → Except String String)
    (smechRows : List SmechRow) (bccRows : List BccRow) (ts : String)
    (smech : Dict) (warns : List String) (bcc : Dict)
    (h1 : load_smech_to_bcc smechRows = .ok (smech, warns))
    (h2 : load_bcc_sectors bccRows = .ok bcc)
    (hp : args.prettier = true)
    (hcc : crossCheck bcc smech = .ok ()) :
    (∀ e, prettier_format_code run (benchmark_code ts smech bcc) "naces.ts"
        args.prettier_cmd (args.prettier_config_benchmark <|> args.prettier_config)
          = .error e →
      main args run smechRows bccRows ts = .error e)
    ∧ (∀ fb e, prettier_format_code run (benchmark_code ts smech bcc) "naces.ts"
          args.prettier_cmd (args.prettier_config_benchmark <|> args.prettier_config)
            = .ok fb →
        prettier_format_code run (bcc_sectors_code ts bcc) "sectors.data.ts"
          args.prettier_cmd (args.prettier_config_bcc <|> args.prettier_config)
            = .error e →
      main args run smechRows bccRows ts = .error e)
    ∧ (∀ ws, main args run smechRows bccRows ts = .ok ws →
        ∃ fb fc, prettier_format_code run (benchmark_code ts smech bcc) "naces.ts"
            args.prettier_cmd (args.prettier_config_benchmark <|> args.prettier_config)
              = .ok fb
          ∧ prettier_format_code run (bcc_sectors_code ts bcc) "sectors.data.ts"
              args.prettier_cmd (args.prettier_config_bcc <|> args.prettier_config)
                = .ok fc
          ∧ ws = [WriteOp.mk (args.output_benchmark.getD "dist/naces.ts") fb,
              WriteOp.mk (args.output_bcc.getD "dist/sectors.data.ts") fc]) := by
  have hm := main_eq args run smechRows bccRows ts smech warns bcc h1 h2
  rw [hcc, except_bind_ok, if_pos hp, if_pos hp] at hm
  refine ⟨fun e he => ?_, fun fb e hfb he => ?_, fun ws hws => ?_⟩
  · rw [hm, he, except_bind_error]
  · rw [hm, hfb, except_bind_ok, he, except_bind_error]
  · rw [hm] at hws
    cases hfb : prettier_format_code run (benchmark_code ts smech bcc) "naces.ts"
        args.prettier_cmd (args.prettier_config_benchmark <|> args.prettier_config) with
    | error e =>
      rw [hfb, except_bind_error] at hws
      exact Except.noConfusion hws
    | ok fb =>
      rw [hfb, except_bind_ok] at hws
      cases hfc : prettier_format_code run (bcc_sectors_code ts bcc) "sectors.data.ts"
          args.prettier_cmd (args.prettier_config_bcc <|> args.prettier_config) with
      | error e =>
        rw [hfc, except_bind_error] at hws
        exact Except.noConfusion hws
      | ok fc =>
        rw [hfc, except_bind_ok] at hws
        exact ⟨fb, fc, rfl, rfl, (Except.ok.inj hws).symm⟩

/-- C2: the `sector_list` built in `main` is sorted ascending by display
name and is a permutation of the `{name, nace}` entries built from the BCC
sector dict; Artifact B's interpolated array is Artifact A's `sector_list`
with exactly the one trailing rendered `{"name": "Not listed", "nace": ""}`
entry appended; Artifact A renders this same `sector_list`. -/
theorem sector_list_sorted_and_bcc_array_trailing_entry (bcc : Dict) (ts : String) :
    List.Pairwise (fun a b : NaceInfo => a.name ≤ b.name) (sector_list bcc)
    ∧ (sector_list bcc).Perm (bcc.map (fun p => NaceInfo.mk p.2 p.1))
    ∧ bcc_sectors_code ts bcc
        = BCC_SECTORS_OUT_TEMPLATE ts
            (jsonArr ((sector_list bcc).map jsonSector ++ [jsonSector notListed]))
    ∧ ∀ smech, benchmark_code ts smech bcc
        = BENCHMARK_OUT_TEMPLATE ts (jsonArr ((sector_list bcc).map jsonSector))
            (jsonSmechMapping smech) := by
  refine ⟨?_, List.mergeSort_perm _ _, ?_, fun smech => rfl⟩
  · have hs := @List.sorted_mergeSort NaceInfo (fun a b => a.name ≤ b.name)
      (fun a b c hab hbc => by
        simp only [decide_eq_true_eq] at *
        exact le_trans hab hbc)
      (fun a b => by
        simp only [Bool.or_eq_true, decide_eq_true_eq]
        exact le_total a.name b.name)
      (bcc.map (fun p => NaceInfo.mk p.2 p.1))
    exact hs.imp (fun h => by simpa using h)
  · simp [bcc_sectors_code, jsonSectorArray]



theorem dictGet?_perm (d d' : Dict) (hperm : d.Perm d')
    (hnd : (d.map Prod.fst).Nodup) (k : String) :
    dictGet? d' k = dictGet? d k := by
  unfold dictGet?
  cases hfd : List.find? (fun p => p.1 == k) d with
  | none =>
    cases hfd' : List.find? (fun p => p.1 == k) d' with
    | none => rfl
    | some e =>
      have he : e ∈ d := hperm.symm.subset (List.mem_of_find?_eq_some hfd')
      have hpe := List.find?_some hfd'
      have := List.find?_eq_none.mp hfd e he
      exact absurd hpe this
  | some e =>
    have he : e ∈ d := List.mem_of_find?_eq_some hfd
    have hpe := List.find?_some hfd
    cases hfd' : List.find? (fun p => p.1 == k) d' with
    | none =>
      have := List.find?_eq_none.mp hfd' e (hperm.subset he)
      exact absurd hpe this
    | some e' =>
      have he' : e' ∈ d := hperm.symm.subset (List.mem_of_find?_eq_some hfd')
      have hpe' := List.find?_some hfd'
      have hek : e.1 = k := by simpa using hpe
      have hek' : e'.1 = k := by simpa using hpe'
      have hinj := List.inj_on_of_nodup_map hnd
      have : e' = e := hinj he' he (by rw [hek, hek'])
      rw [this]

/-- C8: JSON round-trip. Decoding the `$sector_list` payload of Artifact A
yields exactly the sector list used to generate it; decoding the
`$smech_mapping` payload yields the key-sorted mapping, which has the same
lookups as the original dict (so no data is lost); decoding Artifact B's
`$bcc_sector_array` payload yields the sector list plus the synthetic
trailing entry, and dropping that entry recovers Artifact A's list. -/
theorem json_payload_round_trip (smech bcc : Dict) (ts : String)
    (hkeys : (smech.map Prod.fst).Nodup) :
    benchmark_code ts smech bcc
        = BENCHMARK_OUT_TEMPLATE ts (jsonSectorArray (sector_list bcc))
            (jsonSmechMapping smech)
    ∧ decodeSectorArrayPayload (jsonSectorArray (sector_list bcc))
        = some (sector_list bcc)
    ∧ decodeSmechMappingPayload (jsonSmechMapping smech) = some (sortPairs smech)
    ∧ (∀ k, dictGet? (sortPairs smech) k = dictGet? smech k)
    ∧ decodeSectorArrayPayload (jsonSectorArray (sector_list bcc ++ [notListed]))
        = some (sector_list bcc ++ [notListed])
    ∧ (sector_list bcc ++ [notListed]).dropLast = sector_list bcc := by
  refine ⟨rfl, decodeSectorArrayPayload_enc _, decodeSmechMappingPayload_enc _,
    fun k => ?_, decodeSectorArrayPayload_enc _, List.dropLast_concat ..⟩
  exact dictGet?_perm smech (sortPairs smech) (List.mergeSort_perm _ _).symm hkeys k

/-- Witness for C3 at concrete rows: same trimmed source code, same target. -/
theorem smech_loader_duplicate_source_rows_witness :
    pyStrip (" 5 " : String) = pyStrip ("5" : String)
    ∧ load_smech_to_bcc [SmechRow.mk "A" "5" "x" "" "" "12",
        SmechRow.mk "B" " 5 " "y" "" "" "12"] = .ok ([("5", "12")], []) :=
  ⟨by decide,
    (smech_loader_duplicate_source_rows (SmechRow.mk "A" "5" "x" "" "" "12")
      (SmechRow.mk "B" " 5 " "y" "" "" "12") (by decide) (by decide) (by decide)
      (by decide) (by decide) (by decide)).1 (by decide)⟩

/-- Witness for C5 at concrete rows with equal display names. -/
theorem bcc_loader_duplicate_code_always_fatal_witness :
    pyStrip (BccRow.mk "12" "" "" "" "" "" "x" "Widgets").bcc_name
      = pyStrip (BccRow.mk "12" "" "" "" "" "" "yes" "Widgets").bcc_name
    ∧ load_bcc_sectors [BccRow.mk "12" "" "" "" "" "" "x" "Widgets",
        BccRow.mk "12" "" "" "" "" "" "yes" "Widgets"]
      = .error (naceDupMsg "12" 3) :=
  ⟨by decide,
    bcc_loader_duplicate_code_always_fatal
      (BccRow.mk "12" "" "" "" "" "" "x" "Widgets")
      (BccRow.mk "12" "" "" "" "" "" "yes" "Widgets")
      (by decide) (by decide) (by decide) (by decide) (by decide) (by decide)⟩

/-- Witness for C7 at a concrete row whose target code trims to empty. -/
theorem smech_loader_empty_target_skipped_witness :
    pyStrip (SmechRow.mk "A" "5" "x" "" "" "  ").bcc_code = ""
    ∧ ((∀ (st : Dict × List String) (l : List (Nat × SmechRow)),
        loadSmechAux st ((2, SmechRow.mk "A" "5" "x" "" "" "  ") :: l)
          = loadSmechAux
              (st.1, st.2 ++ [smechWarnMsg (SmechRow.mk "A" "5" "x" "" "" "  ")]) l)
      ∧ ∀ (l : List (Nat × SmechRow)) (out : Dict) (w : List String),
        (loadSmechAux (out, w) l).map Prod.fst
          = (loadSmechAux (out, w)
              (l.filter (fun p => pyStrip p.2.bcc_code ≠ ""))).map Prod.fst) :=
  ⟨by decide, smech_loader_empty_target_skipped 2 (SmechRow.mk "A" "5" "x" "" "" "  ")
    (by decide)⟩

/-- Witness for C10 at a concrete row with a non-digit source code and an
empty target code. -/
theorem empty_target_skips_validation_witness :
    pyStrip (SmechRow.mk "A" "abc" "x" "" "" "").bcc_code = ""
    ∧ ¬ rxDigitsMatch (pyStrip (SmechRow.mk "A" "abc" "x" "" "" "").smech_code) = true
    ∧ (load_smech_step ([], []) (2, SmechRow.mk "A" "abc" "x" "" "" "")
        = .ok ([], [] ++ [smechWarnMsg (SmechRow.mk "A" "abc" "x" "" "" "")])
      ∧ (∀ l, loadSmechAux ([], []) ((2, SmechRow.mk "A" "abc" "x" "" "" "") :: l)
          = loadSmechAux ([], [] ++ [smechWarnMsg (SmechRow.mk "A" "abc" "x" "" "" "")]) l)
      ∧ load_smech_to_bcc [SmechRow.mk "A" "abc" "x" "" "" ""]
          = .ok ([], [smechWarnMsg (SmechRow.mk "A" "abc" "x" "" "" "")])) :=
  ⟨by decide, by decide,
    empty_target_skips_validation 2 (SmechRow.mk "A" "abc" "x" "" "" "") ([], [])
      (by decide) (by decide)⟩

/-- Witness for C4 at a concrete two-row input, one flagged and one not. -/
theorem bcc_loader_include_flag_filter_witness :
    load_bcc_sectors [BccRow.mk "12" "" "" "" "" "" "x" "Widgets",
        BccRow.mk "13" "" "" "" "" "" "no" "Gears"] = .ok [("12", "Widgets")]
    ∧ ((∀ p ∈ [(("12" : String), ("Widgets" : String))],
        ∃ r ∈ [BccRow.mk "12" "" "" "" "" "" "x" "Widgets",
            BccRow.mk "13" "" "" "" "" "" "no" "Gears"],
          useForBcc r = true ∧ pyStrip r.nace_code = p.1 ∧ pyStrip r.bcc_name = p.2)
      ∧ (∀ r ∈ [BccRow.mk "12" "" "" "" "" "" "x" "Widgets",
            BccRow.mk "13" "" "" "" "" "" "no" "Gears"],
          useForBcc r = true → dictContains [("12", "Widgets")] (pyStrip r.nace_code) = true)) :=
  ⟨rfl, bcc_loader_include_flag_filter.2
    [BccRow.mk "12" "" "" "" "" "" "x" "Widgets",
      BccRow.mk "13" "" "" "" "" "" "no" "Gears"] [("12", "Widgets")] rfl⟩



/-- Witness for C1: a mapping targeting NACE 12 with an empty sector table. -/
theorem cross_reference_check_gates_outputs_witness :
    load_smech_to_bcc [SmechRow.mk "A" "5" "x" "" "" "12"] = .ok ([("5", "12")], [])
    ∧ load_bcc_sectors ([] : List BccRow) = .ok []
    ∧ (((∃ p ∈ [(("5" : String), ("12" : String))], dictContains [] p.2 = false) →
        ∃ s t, (s, t) ∈ [(("5" : String), ("12" : String))] ∧ dictContains [] t = false ∧
          main (Args.mk false ["npx", "prettier"] none none none none none)
            (fun _ s => .ok s) [SmechRow.mk "A" "5" "x" "" "" "12"] [] "T"
            = .error (refErrorMsg s t))
      ∧ (∀ ws, main (Args.mk false ["npx", "prettier"] none none none none none)
            (fun _ s => .ok s) [SmechRow.mk "A" "5" "x" "" "" "12"] [] "T" = .ok ws →
          ∀ p ∈ [(("5" : String), ("12" : String))], dictContains [] p.2 = true)) :=
  ⟨rfl, rfl,
    cross_reference_check_gates_outputs
      (Args.mk false ["npx", "prettier"] none none none none none)
      (fun _ s => .ok s) [SmechRow.mk "A" "5" "x" "" "" "12"] [] "T"
      [("5", "12")] [] [] rfl rfl⟩

/-- Witness for C9: formatter enabled with an identity formatter oracle. -/
theorem formatter_failure_prevents_writes_witness :
    load_smech_to_bcc [SmechRow.mk "A" "5" "x" "" "" "12"] = .ok ([("5", "12")], [])
    ∧ load_bcc_sectors [BccRow.mk "12" "" "" "" "" "" "x" "Widgets"]
        = .ok [("12", "Widgets")]
    ∧ crossCheck [("12", "Widgets")] [("5", "12")] = .ok ()
    ∧ ((∀ e, prettier_format_code (fun _ s => .ok s)
          (benchmark_code "T" [("5", "12")] [("12", "Widgets")]) "naces.ts"
          ["npx", "prettier"] (none <|> none) = .error e →
        main (Args.mk true ["npx", "prettier"] none none none none none)
          (fun _ s => .ok s) [SmechRow.mk "A" "5" "x" "" "" "12"]
          [BccRow.mk "12" "" "" "" "" "" "x" "Widgets"] "T" = .error e)
      ∧ (∀ fb e, prettier_format_code (fun _ s => .ok s)
            (benchmark_code "T" [("5", "12")] [("12", "Widgets")]) "naces.ts"
            ["npx", "prettier"] (none <|> none) = .ok fb →
          prettier_format_code (fun _ s => .ok s)
            (bcc_sectors_code "T" [("12", "Widgets")]) "sectors.data.ts"
            ["npx", "prettier"] (none <|> none) = .error e →
        main (Args.mk true ["npx", "prettier"] none none none none none)
          (fun _ s => .ok s) [SmechRow.mk "A" "5" "x" "" "" "12"]
          [BccRow.mk "12" "" "" "" "" "" "x" "Widgets"] "T" = .error e)
      ∧ (∀ ws, main (Args.mk true ["npx", "prettier"] none none none none none)
            (fun _ s => .ok s) [SmechRow.mk "A" "5" "x" "" "" "12"]
            [BccRow.mk "12" "" "" "" "" "" "x" "Widgets"] "T" = .ok ws →
          ∃ fb fc, prettier_format_code (fun _ s => .ok s)
              (benchmark_code "T" [("5", "12")] [("12", "Widgets")]) "naces.ts"
              ["npx", "prettier"] (none <|> none) = .ok fb
            ∧ prettier_format_code (fun _ s => .ok s)
                (bcc_sectors_code "T" [("12", "Widgets")]) "sectors.data.ts"
                ["npx", "prettier"] (none <|> none) = .ok fc
            ∧ ws = [WriteOp.mk ((none : Option String).getD "dist/naces.ts") fb,
                WriteOp.mk ((none : Option String).getD "dist/sectors.data.ts") fc])) :=
  ⟨rfl, rfl, rfl,
    formatter_failure_prevents_writes
      (Args.mk true ["npx", "prettier"] none none none none none)
      (fun _ s => .ok s) [SmechRow.mk "A" "5" "x" "" "" "12"]
      [BccRow.mk "12" "" "" "" "" "" "x" "Widgets"] "T"
      [("5", "12")] [] [("12", "Widgets")] rfl rfl rfl rfl⟩

/-- Witness for C8 at a concrete one-entry mapping and sector table. -/
theorem json_payload_round_trip_witness :
    (([("5", "12")] : Dict).map Prod.fst).Nodup
    ∧ (benchmark_code "T" [("5", "12")] [("12", "Widget")]
        = BENCHMARK_OUT_TEMPLATE "T"
            (jsonSectorArray (sector_list [("12", "Widget")]))
            (jsonSmechMapping [("5", "12")])
      ∧ decodeSectorArrayPayload (jsonSectorArray (sector_list [("12", "Widget")]))
          = some (sector_list [("12", "Widget")])
      ∧ decodeSmechMappingPayload (jsonSmechMapping [("5", "12")])
          = some (sortPairs [("5", "12")])
      ∧ (∀ k, dictGet? (sortPairs [("5", "12")]) k = dictGet? [("5", "12")] k)
      ∧ decodeSectorArrayPayload
            (jsonSectorArray (sector_list [("12", "Widget")] ++ [notListed]))
          = some (sector_list [("12", "Widget")] ++ [notListed])
      ∧ (sector_list [("12", "Widget")] ++ [notListed]).dropLast
          = sector_list [("12", "Widget")]) :=
  ⟨by decide, json_payload_round_trip [("5", "12")] [("12", "Widget")] "T" (by decide)⟩

end SmechNace
